import Mathlib

/-!
# Drawpile brush preview: dab placement and pressure toggles

A shallow embedding of `src/client/brushpreview.cpp` (class `BrushPreview`):
the dab generating loops of `updatePreview` for the three preview shapes and
the configuration setters that keep the brush's pressure endpoints in step
with the widget's pressure flags.

Conventions of the embedding.

* C++ `int` is a 32-bit two's complement integer, held in an `Int`;
  `int / int` is `Int.tdiv` (truncation towards zero). The results that can
  leave the 32-bit range on a widget of non-negative size are wrapped with
  `wrapInt32`: the product `brush_.spacing() * brush_.radius(1)` of line 113
  and the increments `x += spacing`, `y += spacing` of the Line and Rectangle
  loops. The other sums of these loops (`offx + x`, `offy + y`, ...) stay in
  range there, and so do those of the Stroke loop for the sine of a 32-bit
  height; they are sums of integers.
* `qreal` is `ℚ`: every value is exact, rounding of floating point
  arithmetic is not modelled. Conversion of a `qreal` to `int` is
  `truncToInt`.
* A loop is a function with a fuel argument that returns `none` when the fuel
  runs out; the theorems show how much fuel is enough.
* Painting is a list of points: `brush_.draw(preview_, p)` appends `p` to
  the result. The repaint requests (`update()`) and the background fill do
  not touch the modelled fields and are left out; the dab sequence a setter
  leaves on screen is `updatePreview` of the state it returns.
* The only transcendental value of the code, `qRound(sin(phase) * strokeh)`,
  is read from a parameter `wave : Int → Int` (the rounded height of the
  sine at step `x`).
-/

namespace Drawpile

/-! ## Data model -/

/-- An RGB colour value (Qt's `QColor`, compared by its components). -/
structure QColor where
  red : Nat
  green : Nat
  blue : Nat
deriving DecidableEq, Repr

/-- Modelled from the spec: `drawingboard::Point` (`point.h` is not in the
excerpt), the "DabRequest" of the data model: an integer position and the
pressure of the dab. -/
structure Point where
  x : Int
  y : Int
  pressure : ℚ
deriving DecidableEq, Repr

/-- Conversion of a `qreal` to `int`: truncation towards zero. -/
def truncToInt (q : ℚ) : Int := if 0 ≤ q then ⌊q⌋ else ⌈q⌉

/-- The value a 32-bit `int` holds after an arithmetic result `z` wraps
around: the representative of `z` modulo 2^32 in `[-2^31, 2^31)`. -/
def wrapInt32 (z : Int) : Int := (z + 2147483648) % 4294967296 - 2147483648

/-- Modelled from the spec: `drawingboard::Brush` (`brush.h` and `brush.cpp`
are not in the excerpt), the "BrushConfig" value of the data model without the
four pressure flags, which the code keeps in `BrushPreview`. Each attribute has
two endpoint values for pressure interpolation: `radius1`, `opacity1`,
`hardness1`, `color1` are the spec's `radius`, `opacity`, `hardness`,
`color1`, and the fields ending in `2` are its "2" endpoints. The radius
endpoints and the spacing are `int`s, as the setters `setSize(int)` and
`setSpacing(int)` pass them and as line 113 uses them
(`int spacing = brush_.spacing() * brush_.radius(1) / 100`); opacity and
hardness are `qreal`s. -/
structure Brush where
  radius1 : Int
  radius2 : Int
  hardness1 : ℚ
  hardness2 : ℚ
  opacity1 : ℚ
  opacity2 : ℚ
  color1 : QColor
  color2 : QColor
  spacing : Int
deriving DecidableEq, Repr

/-- Modelled from the spec: the interpolation between the two endpoints of a
brush attribute (`brush.cpp` is not in the excerpt). The spec's data model
has the "2" endpoint as the "no pressure" endpoint and evaluation at pressure
1.0 gives the "1" endpoint, which is also how `setSizePressure(true)` uses
it (it sets `radius2` to 0: no size without pressure); the interpolation is
taken linear. The glossary's reversed labelling of the endpoints is not
followed. -/
def interpolate (v1 v2 pressure : ℚ) : ℚ := v2 + (v1 - v2) * pressure

/-- Modelled from the spec: `Brush::radius(pressure)`, "the value the
attribute would take" at the given pressure, as an `int`: the interpolated
value, truncated (at pressure 0 and 1 it is an endpoint and nothing is cut
off). -/
def Brush.radius (b : Brush) (pressure : ℚ) : Int :=
  truncToInt (interpolate b.radius1 b.radius2 pressure)

/-- Modelled from the spec: `Brush::opacity(pressure)`. -/
def Brush.opacity (b : Brush) (pressure : ℚ) : ℚ :=
  interpolate b.opacity1 b.opacity2 pressure

/-- Modelled from the spec: `Brush::hardness(pressure)`. -/
def Brush.hardness (b : Brush) (pressure : ℚ) : ℚ :=
  interpolate b.hardness1 b.hardness2 pressure

/-- Modelled from the spec: `Brush::setRadius`, the setter of the "1"
endpoint of the radius. -/
def Brush.setRadius (b : Brush) (v : Int) : Brush := { b with radius1 := v }

/-- Modelled from the spec: `Brush::setRadius2`. -/
def Brush.setRadius2 (b : Brush) (v : Int) : Brush := { b with radius2 := v }

/-- Modelled from the spec: `Brush::setOpacity`. -/
def Brush.setOpacity (b : Brush) (v : ℚ) : Brush := { b with opacity1 := v }

/-- Modelled from the spec: `Brush::setOpacity2`. -/
def Brush.setOpacity2 (b : Brush) (v : ℚ) : Brush := { b with opacity2 := v }

/-- Modelled from the spec: `Brush::setHardness`. -/
def Brush.setHardness (b : Brush) (v : ℚ) : Brush := { b with hardness1 := v }

/-- Modelled from the spec: `Brush::setHardness2`. -/
def Brush.setHardness2 (b : Brush) (v : ℚ) : Brush := { b with hardness2 := v }

/-- Modelled from the spec: `Brush::setColor`, the setter of the primary
colour. -/
def Brush.setColor (b : Brush) (c : QColor) : Brush := { b with color1 := c }

/-- Modelled from the spec: `Brush::setColor2`. -/
def Brush.setColor2 (b : Brush) (c : QColor) : Brush := { b with color2 := c }

/-- Modelled from the spec: `Brush::setSpacing`. -/
def Brush.setSpacing (b : Brush) (v : Int) : Brush := { b with spacing := v }

/-- The enumeration `BrushPreview::PreviewShape`. -/
inductive PreviewShape where
  | Stroke
  | Line
  | Rectangle
deriving DecidableEq, Repr

/-- The state of a `BrushPreview` widget: the member variables the setters
and `updatePreview` read or write, and the widget's `width()` and
`height()`. -/
structure BrushPreview where
  brush_ : Brush
  color1_ : QColor
  color2_ : QColor
  sizepressure_ : Bool
  opacitypressure_ : Bool
  hardnesspressure_ : Bool
  colorpressure_ : Bool
  shape_ : PreviewShape
  width : Int
  height : Int
deriving DecidableEq, Repr

/-! ## Numeric helpers -/

/-- Qt's `qBound(min, val, max)`, which is `qMax(min, qMin(max, val))`. -/
def qBound (lo val hi : ℚ) : ℚ := max lo (min hi val)

/-- The value of `qRound(hypot(dx, dy))` in exact arithmetic: the integer
nearest to the square root of `dx² + dy²` (a square root of an integer is
never half way between two integers). -/
def qRoundHypot (dx dy : Int) : Int :=
  ((Nat.sqrt (4 * (dx.natAbs ^ 2 + dy.natAbs ^ 2)) + 1) / 2 : Nat)

/-- The pressure curve of the stroke shape (line 121):
`qBound(0.0, ((fx*fx) - (fx*fx*fx))*6.756, 1.0)`. -/
def strokePressure (fx : ℚ) : ℚ :=
  qBound 0 ((fx * fx - fx * fx * fx) * 6.756) 1

/-! ## updatePreview -/

/-- The constant `strokew = width() - width()/4` of `updatePreview`. -/
def BrushPreview.strokew (s : BrushPreview) : Int := s.width - Int.tdiv s.width 4

/-- The constant `strokeh = height() / 4`. -/
def BrushPreview.strokeh (s : BrushPreview) : Int := Int.tdiv s.height 4

/-- The constant `offx = width()/8`. -/
def BrushPreview.offx (s : BrushPreview) : Int := Int.tdiv s.width 8

/-- The constant `offy = height()/2`. -/
def BrushPreview.offy (s : BrushPreview) : Int := Int.tdiv s.height 2

/-- The initial value of the local `spacing`
(`int spacing = brush_.spacing() * brush_.radius(1) / 100`): the 32-bit
product of two `int`s, divided by 100 with truncation towards zero. -/
def BrushPreview.spacing (s : BrushPreview) : Int :=
  Int.tdiv (wrapInt32 (s.brush_.spacing * s.brush_.radius 1)) 100

/-- The loop of the Stroke shape (lines 119-131), from the iteration with
loop variable `x` and the current `lastx`, `lasty`, `distance`. -/
def strokeLoop (wave : Int → Int) (offx offy strokew spacing : Int) :
    Nat → Int → Int → Int → Int → Option (List Point)
  | 0, _, _, _, _ => none
  | fuel + 1, x, lastx, lasty, distance =>
    if x < strokew then
      let fx : ℚ := (x : ℚ) / (strokew : ℚ)
      let pressure := strokePressure fx
      let y := wave x
      if distance ≥ spacing then
        (strokeLoop wave offx offy strokew spacing fuel (x + 1) x y 0).map
          (fun rest => Point.mk (offx + x) (offy + y) pressure :: rest)
      else
        strokeLoop wave offx offy strokew spacing fuel (x + 1) x y
          (distance + qRoundHypot (lastx - x) (lasty - y))
    else some []

/-- The loop of the Line shape (lines 135-137); `x += spacing` is a 32-bit
addition. -/
def lineLoop (offx offy strokew spacing : Int) : Nat → Int → Option (List Point)
  | 0, _ => none
  | fuel + 1, x =>
    if x < strokew then
      (lineLoop offx offy strokew spacing fuel (wrapInt32 (x + spacing))).map
        (fun rest => Point.mk (offx + x) offy 1 :: rest)
    else some []

/-- The first loop of the Rectangle shape (lines 141-144): the top and the
bottom edge; `x += spacing` is a 32-bit addition. -/
def rectLoopX (offx offy strokew strokeh spacing : Int) : Nat → Int → Option (List Point)
  | 0, _ => none
  | fuel + 1, x =>
    if x < strokew then
      (rectLoopX offx offy strokew strokeh spacing fuel (wrapInt32 (x + spacing))).map
        (fun rest => Point.mk (offx + x) (offy - strokeh) 1 ::
          Point.mk (offx + x) (offy + strokeh) 1 :: rest)
    else some []

/-- The second loop of the Rectangle shape (lines 145-148): the left and the
right edge; `y += spacing` is a 32-bit addition. -/
def rectLoopY (offx offy strokew strokeh spacing : Int) : Nat → Int → Option (List Point)
  | 0, _ => none
  | fuel + 1, y =>
    if y < strokeh then
      (rectLoopY offx offy strokew strokeh spacing fuel (wrapInt32 (y + spacing))).map
        (fun rest => Point.mk offx (offy + y) 1 ::
          Point.mk (offx + strokew) (offy + y) 1 :: rest)
    else some []

/-- The dab sequence painted by `BrushPreview::updatePreview` (lines 109-149),
in painting order; `none` when a loop needs more than `fuel` iterations. -/
def updatePreview (fuel : Nat) (wave : Int → Int) (s : BrushPreview) :
    Option (List Point) :=
  match s.shape_ with
  | PreviewShape.Stroke =>
    strokeLoop wave s.offx s.offy s.strokew s.spacing fuel 0 0 0 0
  | PreviewShape.Line =>
    let spacing := if s.spacing = 0 then 1 else s.spacing
    lineLoop s.offx s.offy s.strokew spacing fuel 0
  | PreviewShape.Rectangle =>
    let spacing := if s.spacing = 0 then 1 else s.spacing
    match rectLoopX s.offx s.offy s.strokew s.strokeh spacing fuel 0,
          rectLoopY s.offx s.offy s.strokew s.strokeh spacing fuel (-s.strokeh) with
    | some top, some side => some (top ++ side)
    | _, _ => none

/-! ## Setters -/

/-- The method `BrushPreview::setPreviewShape`. -/
def setPreviewShape (shape : PreviewShape) (s : BrushPreview) : BrushPreview :=
  { s with shape_ := shape }

/-- The method `BrushPreview::setColor1`. -/
def setColor1 (color : QColor) (s : BrushPreview) : BrushPreview :=
  let s1 := { s with color1_ := color, brush_ := s.brush_.setColor color }
  if s1.colorpressure_ = false then
    { s1 with brush_ := s1.brush_.setColor2 color }
  else s1

/-- The method `BrushPreview::setColor2`. -/
def setColor2 (color : QColor) (s : BrushPreview) : BrushPreview :=
  let s1 := { s with color2_ := color }
  if s1.colorpressure_ then
    { s1 with brush_ := s1.brush_.setColor2 color }
  else s1

/-- The method `BrushPreview::setBrush`. -/
def setBrush (brush : Brush) (s : BrushPreview) : BrushPreview :=
  { s with brush_ := brush }

/-- The method `BrushPreview::setSize`. -/
def setSize (size : Int) (s : BrushPreview) : BrushPreview :=
  let s1 := { s with brush_ := s.brush_.setRadius size }
  if s1.sizepressure_ = false then
    { s1 with brush_ := s1.brush_.setRadius2 size }
  else s1

/-- The method `BrushPreview::setOpacity`. -/
def setOpacity (opacity : Int) (s : BrushPreview) : BrushPreview :=
  let o : ℚ := (opacity : ℚ) / 100
  let s1 := { s with brush_ := s.brush_.setOpacity o }
  if s1.opacitypressure_ = false then
    { s1 with brush_ := s1.brush_.setOpacity2 o }
  else s1

/-- The method `BrushPreview::setHardness`. -/
def setHardness (hardness : Int) (s : BrushPreview) : BrushPreview :=
  let h : ℚ := (hardness : ℚ) / 100
  let s1 := { s with brush_ := s.brush_.setHardness h }
  if s1.hardnesspressure_ = false then
    { s1 with brush_ := s1.brush_.setHardness2 h }
  else s1

/-- The method `BrushPreview::setSpacing`. -/
def setSpacing (spacing : Int) (s : BrushPreview) : BrushPreview :=
  { s with brush_ := s.brush_.setSpacing spacing }

/-- The method `BrushPreview::setSizePressure`. -/
def setSizePressure (enable : Bool) (s : BrushPreview) : BrushPreview :=
  let s1 := { s with sizepressure_ := enable }
  if enable then
    { s1 with brush_ := s1.brush_.setRadius2 0 }
  else
    { s1 with brush_ := s1.brush_.setRadius2 (s1.brush_.radius 1) }

/-- The method `BrushPreview::setOpacityPressure`. -/
def setOpacityPressure (enable : Bool) (s : BrushPreview) : BrushPreview :=
  let s1 := { s with opacitypressure_ := enable }
  if enable then
    { s1 with brush_ := s1.brush_.setOpacity2 0 }
  else
    { s1 with brush_ := s1.brush_.setOpacity2 (s1.brush_.opacity 1) }

/-- The method `BrushPreview::setHardnessPressure`. -/
def setHardnessPressure (enable : Bool) (s : BrushPreview) : BrushPreview :=
  let s1 := { s with hardnesspressure_ := enable }
  if enable then
    { s1 with brush_ := s1.brush_.setHardness2 0 }
  else
    { s1 with brush_ := s1.brush_.setHardness2 (s1.brush_.hardness 1) }

/-- The method `BrushPreview::setColorPressure`. -/
def setColorPressure (enable : Bool) (s : BrushPreview) : BrushPreview :=
  let s1 := { s with colorpressure_ := enable }
  if enable then
    { s1 with brush_ := s1.brush_.setColor2 s1.color2_ }
  else
    { s1 with brush_ := s1.brush_.setColor2 s1.color1_ }

/-- A call of one of the public slots of the widget. -/
inductive Call where
  | setPreviewShape (shape : PreviewShape)
  | setColor1 (color : QColor)
  | setColor2 (color : QColor)
  | setBrush (brush : Brush)
  | setSize (size : Int)
  | setOpacity (opacity : Int)
  | setHardness (hardness : Int)
  | setSpacing (spacing : Int)
  | setSizePressure (enable : Bool)
  | setOpacityPressure (enable : Bool)
  | setHardnessPressure (enable : Bool)
  | setColorPressure (enable : Bool)
deriving DecidableEq, Repr

/-- The state after one call. -/
def Call.apply (c : Call) (s : BrushPreview) : BrushPreview :=
  match c with
  | Call.setPreviewShape shape => Drawpile.setPreviewShape shape s
  | Call.setColor1 color => Drawpile.setColor1 color s
  | Call.setColor2 color => Drawpile.setColor2 color s
  | Call.setBrush brush => Drawpile.setBrush brush s
  | Call.setSize size => Drawpile.setSize size s
  | Call.setOpacity opacity => Drawpile.setOpacity opacity s
  | Call.setHardness hardness => Drawpile.setHardness hardness s
  | Call.setSpacing spacing => Drawpile.setSpacing spacing s
  | Call.setSizePressure enable => Drawpile.setSizePressure enable s
  | Call.setOpacityPressure enable => Drawpile.setOpacityPressure enable s
  | Call.setHardnessPressure enable => Drawpile.setHardnessPressure enable s
  | Call.setColorPressure enable => Drawpile.setColorPressure enable s

/-- The state after a sequence of calls, the first call of the list first. -/
def runCalls (calls : List Call) (s : BrushPreview) : BrushPreview :=
  calls.foldl (fun st c => c.apply st) s

/-! ## Call sequences used by the statements -/

/-- The calls after which the size-pressure flag is what it was: `setSize`,
`setOpacity`, `setHardness`, `setSpacing`, `setColor1`, `setColor2` and the
pressure toggles of the other attributes. -/
def Call.keepsSizeFlag : Call → Bool
  | Call.setSize _ => true
  | Call.setOpacity _ => true
  | Call.setHardness _ => true
  | Call.setSpacing _ => true
  | Call.setColor1 _ => true
  | Call.setColor2 _ => true
  | Call.setOpacityPressure _ => true
  | Call.setHardnessPressure _ => true
  | Call.setColorPressure _ => true
  | _ => false

/-- The calls after which the opacity-pressure flag is what it was. -/
def Call.keepsOpacityFlag : Call → Bool
  | Call.setSize _ => true
  | Call.setOpacity _ => true
  | Call.setHardness _ => true
  | Call.setSpacing _ => true
  | Call.setColor1 _ => true
  | Call.setColor2 _ => true
  | Call.setSizePressure _ => true
  | Call.setHardnessPressure _ => true
  | Call.setColorPressure _ => true
  | _ => false

/-- The calls after which the hardness-pressure flag is what it was. -/
def Call.keepsHardnessFlag : Call → Bool
  | Call.setSize _ => true
  | Call.setOpacity _ => true
  | Call.setHardness _ => true
  | Call.setSpacing _ => true
  | Call.setColor1 _ => true
  | Call.setColor2 _ => true
  | Call.setSizePressure _ => true
  | Call.setOpacityPressure _ => true
  | Call.setColorPressure _ => true
  | _ => false

/-- The argument of the last `setSize` call of a sequence, if there is one. -/
def lastSetSize : List Call → Option Int
  | [] => none
  | c :: rest =>
    match lastSetSize rest with
    | some size => some size
    | none =>
      match c with
      | Call.setSize size => some size
      | _ => none

/-- The argument of the last `setOpacity` call of a sequence, if there is
one. -/
def lastSetOpacity : List Call → Option Int
  | [] => none
  | c :: rest =>
    match lastSetOpacity rest with
    | some opacity => some opacity
    | none =>
      match c with
      | Call.setOpacity opacity => some opacity
      | _ => none

/-- The argument of the last `setHardness` call of a sequence, if there is
one. -/
def lastSetHardness : List Call → Option Int
  | [] => none
  | c :: rest =>
    match lastSetHardness rest with
    | some hardness => some hardness
    | none =>
      match c with
      | Call.setHardness hardness => some hardness
      | _ => none

/-- The argument of the last `setColor2` call of a sequence, if there is
one. -/
def lastSetColor2 : List Call → Option QColor
  | [] => none
  | c :: rest =>
    match lastSetColor2 rest with
    | some color => some color
    | none =>
      match c with
      | Call.setColor2 color => some color
      | _ => none

/-! ## Path lengths of the stroke -/

/-- The amount line 127 adds to `distance` at path point `k` when the point
before it is `(k - 1, wave (k - 1))`: `qRound(hypot(lastx - x, lasty - y))`,
the rounded length of the step from `p_(k-1)` to `p_k`. -/
def stepLength (wave : Int → Int) (k : Int) : Int :=
  qRoundHypot ((k - 1) - k) (wave (k - 1) - wave k)

/-- The sum over `k = i+1 .. j-1` of the rounded step lengths
`round |p_k - p_(k-1)|`. -/
def accumulated (wave : Int → Int) (i j : Int) : Int :=
  ∑ k in Finset.Ico (i + 1) j, stepLength wave k

/-! ## Concrete inputs -/

/-- The brush of the spec's end-to-end case: radius 10, opacity 1, hardness 1,
spacing 25, black. -/
def exampleBrush : Brush :=
  { radius1 := 10, radius2 := 10, hardness1 := 1, hardness2 := 1,
    opacity1 := 1, opacity2 := 1, color1 := ⟨0, 0, 0⟩, color2 := ⟨0, 0, 0⟩,
    spacing := 25 }

/-- A preview of the given shape and size showing `exampleBrush`, all
pressure flags off as the constructor leaves them. -/
def examplePreview (shape : PreviewShape) (width height : Int) : BrushPreview :=
  { brush_ := exampleBrush, color1_ := ⟨0, 0, 0⟩, color2_ := ⟨0, 0, 0⟩,
    sizepressure_ := false, opacitypressure_ := false, hardnesspressure_ := false,
    colorpressure_ := false, shape_ := shape, width := width, height := height }

/-- A preview of the given shape, 32 x 32, with spacing 100 and radius
21474837, set through the slots: the product of line 113, 2147483700, is
above the largest 32-bit `int`, 2147483647. -/
def overflowPreview (shape : PreviewShape) : BrushPreview :=
  setSize 21474837 (setSpacing 100 (examplePreview shape 32 32))

/-- A brush whose two colours are red. -/
def redBrush : Brush :=
  { exampleBrush with color1 := ⟨255, 0, 0⟩, color2 := ⟨255, 0, 0⟩ }

/-- The rounded sine of a stroke of 24 steps and height 64 (a 32 x 256
preview): `wave24 x` is the integer nearest to `64 * sin (x * 2π / 24)`. -/
def wave24 (x : Int) : Int :=
  match x with
  | 1 => 17
  | 2 => 32
  | 3 => 45
  | 4 => 55
  | 5 => 62
  | 6 => 64
  | 7 => 62
  | 8 => 55
  | 9 => 45
  | 10 => 32
  | 11 => 17
  | 13 => -17
  | 14 => -32
  | 15 => -45
  | 16 => -55
  | 17 => -62
  | 18 => -64
  | 19 => -62
  | 20 => -55
  | 21 => -45
  | 22 => -32
  | 23 => -17
  | _ => 0

/-! ## The pressure curve -/

theorem strokePressure_range (fx : ℚ) :
    0 ≤ strokePressure fx ∧ strokePressure fx ≤ 1 := by
  unfold strokePressure qBound
  exact ⟨le_max_left _ _, max_le (by norm_num) (min_le_left _ _)⟩

/-- C3: the stroke pressure curve stays in [0,1] on [0,1], is 0 at both ends
and reaches 1 strictly inside the interval (at fx = 2/3). -/
theorem C3_pressure_curve :
    (∀ fx : ℚ, 0 ≤ fx → fx ≤ 1 → 0 ≤ strokePressure fx ∧ strokePressure fx ≤ 1) ∧
    strokePressure 0 = 0 ∧ strokePressure 1 = 0 ∧
    ∃ fx : ℚ, 0 < fx ∧ fx < 1 ∧ strokePressure fx = 1 := by
  refine ⟨fun fx _ _ => strokePressure_range fx, ?_, ?_, 2 / 3, by norm_num, by norm_num, ?_⟩
  · norm_num [strokePressure, qBound]
  · norm_num [strokePressure, qBound]
  · norm_num [strokePressure, qBound]

/-- C3 at fx = 1/2. -/
theorem C3_pressure_curve_witness :
    0 ≤ strokePressure (1 / 2) ∧ strokePressure (1 / 2) ≤ 1 :=
  C3_pressure_curve.1 (1 / 2) (by norm_num) (by norm_num)

/-! ## 32-bit arithmetic -/

theorem wrapInt32_of_inRange {z : Int} (h1 : -2147483648 ≤ z) (h2 : z < 2147483648) :
    wrapInt32 z = z := by
  unfold wrapInt32; omega

theorem wrapInt32_inRange (z : Int) :
    -2147483648 ≤ wrapInt32 z ∧ wrapInt32 z < 2147483648 := by
  unfold wrapInt32; omega

theorem truncToInt_intCast (z : Int) : truncToInt (z : ℚ) = z := by
  unfold truncToInt
  split <;> simp

/-- At pressure 1 the radius of the brush is its "1" endpoint. -/
theorem Brush.radius_one (b : Brush) : b.radius 1 = b.radius1 := by
  unfold Brush.radius interpolate
  have e : (b.radius2 : ℚ) + ((b.radius1 : ℚ) - (b.radius2 : ℚ)) * 1 = ((b.radius1 : Int) : ℚ) := by
    ring
  rw [e, truncToInt_intCast]

/-- Without overflow at line 113 the local `spacing` is the truncated
quotient, between 0 and 21474836. -/
theorem spacing_of_inRange (s : BrushPreview) (hs : 0 ≤ s.brush_.spacing)
    (hr : 0 ≤ s.brush_.radius 1) (hprod : s.brush_.spacing * s.brush_.radius 1 ≤ 2147483647) :
    s.spacing = Int.tdiv (s.brush_.spacing * s.brush_.radius 1) 100 ∧
      0 ≤ s.spacing ∧ s.spacing ≤ 21474836 := by
  have h0 : 0 ≤ s.brush_.spacing * s.brush_.radius 1 := mul_nonneg hs hr
  unfold BrushPreview.spacing
  rw [wrapInt32_of_inRange (by omega) (by omega), Int.tdiv_eq_ediv h0 (by norm_num)]
  refine ⟨rfl, ?_, ?_⟩ <;> omega

theorem coerced_spacing (z : Int) (h : 0 ≤ z) : (if z = 0 then 1 else z) = max 1 z := by
  split
  · next h0 => subst h0; simp
  · next h0 => rw [max_eq_right]; omega

theorem coerced_spacing_pos (z : Int) (h : 0 ≤ z) : 1 ≤ (if z = 0 then 1 else z) := by
  split <;> omega

theorem strokew_nonneg (s : BrushPreview) (hw : 0 ≤ s.width) : 0 ≤ s.strokew := by
  unfold BrushPreview.strokew
  rw [Int.tdiv_eq_ediv hw (by norm_num)]
  omega

theorem strokeh_nonneg (s : BrushPreview) (hh : 0 ≤ s.height) : 0 ≤ s.strokeh := by
  unfold BrushPreview.strokeh
  rw [Int.tdiv_eq_ediv hh (by norm_num)]
  omega

theorem strokew_le (s : BrushPreview) (hw : s.width ≤ 2147483647) :
    s.strokew ≤ 1610612736 := by
  unfold BrushPreview.strokew
  rcases le_or_lt 0 s.width with h | h
  · rw [Int.tdiv_eq_ediv h (by norm_num)]
    omega
  · have e : Int.tdiv s.width 4 = -((-s.width) / 4) := by
      rw [← Int.tdiv_eq_ediv (by omega) (by norm_num), Int.neg_tdiv, neg_neg]
    rw [e]
    omega

theorem strokeh_le (s : BrushPreview) (hh0 : 0 ≤ s.height) (hh : s.height ≤ 2147483647) :
    s.strokeh ≤ 536870911 := by
  unfold BrushPreview.strokeh
  rw [Int.tdiv_eq_ediv hh0 (by norm_num)]
  omega

/-! ## The Line shape -/

/-- The Line loop started at `x` paints `n` dabs, `spacing` apart, when the
first `n` values of the loop variable are below `strokew` and in the 32-bit
range and the next value, after wrap-around, is not below `strokew`. -/
theorem lineLoop_eq (offx offy strokew spacing : Int) (n : Nat) :
    ∀ (fuel : Nat) (x : Int), n < fuel →
      (∀ k : Nat, k < n → x + k * spacing < strokew) →
      (∀ k : Nat, k < n → -2147483648 ≤ x + k * spacing ∧ x + k * spacing < 2147483648) →
      strokew ≤ wrapInt32 (x + n * spacing) →
      -2147483648 ≤ x → x < 2147483648 →
      lineLoop offx offy strokew spacing fuel x =
        some ((List.range n).map fun (k : Nat) =>
          Point.mk (offx + (x + (k : Int) * spacing)) offy 1) := by
  induction n with
  | zero =>
    intro fuel x hf _ _ hge hx1 hx2
    obtain ⟨f, rfl⟩ : ∃ f, fuel = f + 1 := ⟨fuel - 1, by omega⟩
    have hw : wrapInt32 (x + ((0 : Nat) : Int) * spacing) = x := by
      simp only [Nat.cast_zero, zero_mul, add_zero]
      exact wrapInt32_of_inRange hx1 hx2
    rw [hw] at hge
    have : ¬ x < strokew := by omega
    simp [lineLoop, this]
  | succ n ih =>
    intro fuel x hf hlt hrange hge hx1 hx2
    obtain ⟨f, rfl⟩ : ∃ f, fuel = f + 1 := ⟨fuel - 1, by omega⟩
    have h0 : x < strokew := by simpa using hlt 0 (by omega)
    have hnext : wrapInt32 (x + spacing) = x + spacing ∨ n = 0 := by
      rcases Nat.eq_zero_or_pos n with hn | hn
      · exact Or.inr hn
      · left
        have := hrange 1 (by omega)
        simp only [Nat.cast_one, one_mul] at this
        exact wrapInt32_of_inRange this.1 this.2
    have hrec : lineLoop offx offy strokew spacing f (wrapInt32 (x + spacing)) =
        some ((List.range n).map fun (k : Nat) =>
          Point.mk (offx + (x + spacing + (k : Int) * spacing)) offy 1) := by
      rcases hnext with hw | hn
      · rw [hw]
        refine ih f (x + spacing) (by omega) ?_ ?_ ?_ ?_ ?_
        · intro k hk
          have := hlt (k + 1) (by omega)
          push_cast at this
          linarith
        · intro k hk
          have := hrange (k + 1) (by omega)
          push_cast at this
          constructor <;> linarith [this.1, this.2]
        · have e : x + spacing + (n : Int) * spacing = x + ((n + 1 : Nat) : Int) * spacing := by
            push_cast; ring
          rw [e]; exact hge
        · rw [← hw]; exact (wrapInt32_inRange _).1
        · rw [← hw]; exact (wrapInt32_inRange _).2
      · subst hn
        have hge1 : strokew ≤ wrapInt32 (x + spacing) := by simpa using hge
        have := ih f (wrapInt32 (x + spacing)) (by omega) (by intro k hk; omega)
          (by intro k hk; omega)
          (by
            simp only [Nat.cast_zero, zero_mul, add_zero]
            rw [wrapInt32_of_inRange (wrapInt32_inRange _).1 (wrapInt32_inRange _).2]
            exact hge1)
          (wrapInt32_inRange _).1 (wrapInt32_inRange _).2
        rw [this]
        simp
    simp only [lineLoop, h0, if_true, hrec, Option.map_some', List.range_succ_eq_map,
      List.map_cons, List.map_map]
    congr 1
    congr 1
    · simp
    · apply List.map_congr_left
      intro k _
      simp only [Function.comp, Nat.cast_succ]
      congr 1
      ring

/-- C4, amended: for the Line shape with spacing and radius not negative,
their product not above the largest 32-bit `int` (no overflow at line 113)
and a 32-bit width, the dabs are exactly the points `(offx + k*step, offy)`
with pressure 1 for `k = 0 .. ceil(strokew/step) - 1`, in this order, where
`step = max 1 (trunc (spacing * radius / 100))`. -/
theorem C4_line_dabs (wave : Int → Int) (s : BrushPreview) (fuel : Nat)
    (hshape : s.shape_ = PreviewShape.Line)
    (hs : 0 ≤ s.brush_.spacing) (hr : 0 ≤ s.brush_.radius 1)
    (hprod : s.brush_.spacing * s.brush_.radius 1 ≤ 2147483647)
    (hwidth : s.width ≤ 2147483647)
    (hfuel : ⌈(s.strokew : ℚ) /
        ((max 1 (Int.tdiv (s.brush_.spacing * s.brush_.radius 1) 100) : Int) : ℚ)⌉.toNat < fuel) :
    updatePreview fuel wave s =
      some ((List.range ⌈(s.strokew : ℚ) /
          ((max 1 (Int.tdiv (s.brush_.spacing * s.brush_.radius 1) 100) : Int) : ℚ)⌉.toNat).map
        fun (k : Nat) =>
          Point.mk (s.offx + (k : Int) *
            max 1 (Int.tdiv (s.brush_.spacing * s.brush_.radius 1) 100)) s.offy 1) := by
  obtain ⟨hsp, hsp0, hsp1⟩ := spacing_of_inRange s hs hr hprod
  have hco := coerced_spacing s.spacing hsp0
  rw [hsp] at hco hsp0 hsp1
  have hsw := strokew_le s hwidth
  set step : Int := max 1 (Int.tdiv (s.brush_.spacing * s.brush_.radius 1) 100) with hstep
  have hstep1 : 1 ≤ step := le_max_left _ _
  have hstep2 : step ≤ 21474836 := max_le (by norm_num) hsp1
  have hpos : (0 : ℚ) < (step : ℚ) := by exact_mod_cast hstep1
  set n : Nat := ⌈(s.strokew : ℚ) / (step : ℚ)⌉.toNat with hn
  have h1 : ∀ k : Nat, k < n → (k : Int) * step < s.strokew := by
    intro k hk
    have hk1 : (k : Int) < ⌈(s.strokew : ℚ) / (step : ℚ)⌉ := Int.lt_toNat.mp hk
    have hk2 : ((k : Int) : ℚ) < (s.strokew : ℚ) / (step : ℚ) := Int.lt_ceil.mp hk1
    have hk3 : ((k : Int) : ℚ) * (step : ℚ) < (s.strokew : ℚ) := (lt_div_iff₀ hpos).mp hk2
    exact_mod_cast hk3
  have h2 : s.strokew ≤ (n : Int) * step := by
    have a1 : (s.strokew : ℚ) / (step : ℚ) ≤ (⌈(s.strokew : ℚ) / (step : ℚ)⌉ : ℚ) := Int.le_ceil _
    have a2 : ⌈(s.strokew : ℚ) / (step : ℚ)⌉ ≤ (n : Int) := Int.self_le_toNat _
    have a3 : (s.strokew : ℚ) / (step : ℚ) ≤ ((n : Int) : ℚ) := le_trans a1 (by exact_mod_cast a2)
    have a4 : (s.strokew : ℚ) ≤ ((n : Int) : ℚ) * (step : ℚ) := (div_le_iff₀ hpos).mp a3
    exact_mod_cast a4
  have hk0 : ∀ k : Nat, 0 ≤ (k : Int) * step := fun k =>
    mul_nonneg (Int.ofNat_nonneg k) (by omega)
  have h3 : (n : Int) * step < 2147483648 := by
    rcases Nat.eq_zero_or_pos n with h0 | hp
    · rw [h0]; simp
    · have := h1 (n - 1) (by omega)
      have e : ((n - 1 : Nat) : Int) = (n : Int) - 1 := by omega
      rw [e] at this
      have e2 : ((n : Int) - 1) * step = (n : Int) * step - step := by ring
      omega
  have := lineLoop_eq s.offx s.offy s.strokew step n fuel 0 hfuel
    (fun k hk => by simpa using h1 k hk)
    (fun k hk => by
      have a := h1 k hk
      have b := hk0 k
      constructor <;> simp only [zero_add] <;> omega)
    (by
      rw [zero_add, wrapInt32_of_inRange (by have := hk0 n; omega) h3]
      exact h2)
    (by norm_num) (by norm_num)
  simp only [updatePreview, hshape, hsp, hco, this]
  simp

theorem ceil_75_2 : ⌈((75 : Int) : ℚ) / ((2 : Int) : ℚ)⌉ = 38 := by
  rw [Int.ceil_eq_iff]; norm_num

theorem examplePreview_step (shape : PreviewShape) (w h : Int) :
    max 1 (Int.tdiv ((examplePreview shape w h).brush_.spacing *
      (examplePreview shape w h).brush_.radius 1) 100) = 2 := by
  rw [Brush.radius_one]
  simp only [examplePreview, exampleBrush]
  decide

/-- C4 as amended, on the spec's end-to-end case: radius 10, spacing 25,
width 100 give step 2 and 38 dabs at x = 12, 14, ..., 86. -/
theorem C4_line_dabs_witness :
    updatePreview 39 wave24 (examplePreview PreviewShape.Line 100 40) =
      some ((List.range 38).map fun (k : Nat) => Point.mk (12 + (k : Int) * 2) 20 1) := by
  have hw : (examplePreview PreviewShape.Line 100 40).strokew = 75 := by decide
  have hx : (examplePreview PreviewShape.Line 100 40).offx = 12 := by decide
  have hy : (examplePreview PreviewShape.Line 100 40).offy = 20 := by decide
  have h := C4_line_dabs wave24 (examplePreview PreviewShape.Line 100 40) 39 rfl
    (by decide)
    (by rw [Brush.radius_one]; decide)
    (by rw [Brush.radius_one]; decide)
    (by decide)
    (by rw [examplePreview_step, hw, ceil_75_2]; decide)
  rw [examplePreview_step, hw, hx, hy, ceil_75_2] at h
  exact h

/-! ## Overflow of the spacing product -/

theorem overflowPreview_radius (shape : PreviewShape) :
    (overflowPreview shape).brush_.radius 1 = 21474837 := by
  rw [Brush.radius_one]; rfl

/-- With spacing 100 and radius 21474837 the 32-bit product of line 113 is
negative and the local `spacing` is -21474835. -/
theorem overflowPreview_spacing (shape : PreviewShape) :
    (overflowPreview shape).spacing = -21474835 := by
  unfold BrushPreview.spacing
  rw [overflowPreview_radius]
  cases shape <;> decide

/-- The Line loop with spacing -21474835 on a 32 x 32 preview: 101 dabs,
going left from x = 4 until the loop variable wraps around. -/
theorem overflow_line_dabs :
    updatePreview 102 wave24 (overflowPreview PreviewShape.Line) =
      some ((List.range 101).map fun (k : Nat) =>
        Point.mk (4 + (0 + (k : Int) * (-21474835))) 16 1) := by
  have hsh : (overflowPreview PreviewShape.Line).shape_ = PreviewShape.Line := rfl
  have hw : (overflowPreview PreviewShape.Line).strokew = 24 := by decide
  have hx : (overflowPreview PreviewShape.Line).offx = 4 := by decide
  have hy : (overflowPreview PreviewShape.Line).offy = 16 := by decide
  have hloop := lineLoop_eq 4 16 24 (-21474835) 101 102 0 (by decide)
    (fun k hk => by omega) (fun k hk => by omega) (by decide) (by decide) (by decide)
  simp only [updatePreview, hsh, overflowPreview_spacing, hw, hx, hy]
  exact hloop

/-- C4 is false as stated: on a 32 x 32 preview of the Line shape with spacing
100 and radius 21474837 the claim's step is 21474837 and its dab list is the
single point (4, 16), while `updatePreview` paints 101 dabs, at
x = 4, 4 - 21474835, ..., 4 - 100 * 21474835. -/
theorem C4_line_dabs_overflow_counterexample :
    0 ≤ (overflowPreview PreviewShape.Line).brush_.spacing ∧
    (overflowPreview PreviewShape.Line).brush_.spacing ≤ 100 ∧
    0 ≤ (overflowPreview PreviewShape.Line).brush_.radius 1 ∧
    updatePreview 102 wave24 (overflowPreview PreviewShape.Line) =
      some ((List.range 101).map fun (k : Nat) =>
        Point.mk (4 + (0 + (k : Int) * (-21474835))) 16 1) ∧
    updatePreview 102 wave24 (overflowPreview PreviewShape.Line) ≠
      some ((List.range ⌈((overflowPreview PreviewShape.Line).strokew : ℚ) /
          ((max 1 (Int.tdiv ((overflowPreview PreviewShape.Line).brush_.spacing *
            (overflowPreview PreviewShape.Line).brush_.radius 1) 100) : Int) : ℚ)⌉.toNat).map
        fun (k : Nat) =>
          Point.mk ((overflowPreview PreviewShape.Line).offx + (k : Int) *
            max 1 (Int.tdiv ((overflowPreview PreviewShape.Line).brush_.spacing *
              (overflowPreview PreviewShape.Line).brush_.radius 1) 100))
            (overflowPreview PreviewShape.Line).offy 1) := by
  have hw : (overflowPreview PreviewShape.Line).strokew = 24 := by decide
  have hstep : max 1 (Int.tdiv ((overflowPreview PreviewShape.Line).brush_.spacing *
      (overflowPreview PreviewShape.Line).brush_.radius 1) 100) = 21474837 := by
    rw [overflowPreview_radius]; decide
  have hceil : ⌈((24 : Int) : ℚ) / ((21474837 : Int) : ℚ)⌉ = 1 := by
    rw [Int.ceil_eq_iff]; norm_num
  refine ⟨by decide, by decide, by rw [overflowPreview_radius]; decide, overflow_line_dabs, ?_⟩
  rw [overflow_line_dabs, hstep, hw, hceil]
  intro h
  have hlen := congrArg (Option.map List.length) h
  simp at hlen

/-! ## Termination of the loops -/

theorem strokeLoop_terminates (wave : Int → Int) (offx offy strokew spacing : Int) :
    ∀ (fuel : Nat) (x lastx lasty distance : Int), (strokew - x).toNat < fuel →
      ∃ l, strokeLoop wave offx offy strokew spacing fuel x lastx lasty distance = some l ∧
        l.length ≤ (strokew - x).toNat := by
  intro fuel
  induction fuel with
  | zero => intro x _ _ _ h; omega
  | succ f ih =>
    intro x lastx lasty distance h
    by_cases hx : x < strokew
    · by_cases hd : distance ≥ spacing
      · obtain ⟨l, hl, hlen⟩ := ih (x + 1) x (wave x) 0 (by omega)
        refine ⟨Point.mk (offx + x) (offy + wave x) (strokePressure ((x : ℚ) / (strokew : ℚ))) :: l,
          by simp [strokeLoop, hx, hd, hl], ?_⟩
        simp only [List.length_cons]; omega
      · obtain ⟨l, hl, hlen⟩ := ih (x + 1) x (wave x)
          (distance + qRoundHypot (lastx - x) (lasty - wave x)) (by omega)
        exact ⟨l, by simp [strokeLoop, hx, hd, hl], by omega⟩
    · exact ⟨[], by simp [strokeLoop, hx], by simp⟩

theorem lineLoop_terminates (offx offy strokew spacing : Int) (hsp : 1 ≤ spacing)
    (hb : strokew + spacing ≤ 2147483648) :
    ∀ (fuel : Nat) (x : Int), -2147483648 ≤ x → (strokew - x).toNat < fuel →
      ∃ l, lineLoop offx offy strokew spacing fuel x = some l ∧
        l.length ≤ (strokew - x).toNat := by
  intro fuel
  induction fuel with
  | zero => intro x _ h; omega
  | succ f ih =>
    intro x hx0 h
    by_cases hx : x < strokew
    · have hw : wrapInt32 (x + spacing) = x + spacing :=
        wrapInt32_of_inRange (by omega) (by omega)
      obtain ⟨l, hl, hlen⟩ := ih (x + spacing) (by omega) (by omega)
      refine ⟨Point.mk (offx + x) offy 1 :: l, by simp [lineLoop, hx, hw, hl], ?_⟩
      simp only [List.length_cons]; omega
    · exact ⟨[], by simp [lineLoop, hx], by simp⟩

theorem rectLoopX_terminates (offx offy strokew strokeh spacing : Int) (hsp : 1 ≤ spacing)
    (hb : strokew + spacing ≤ 2147483648) :
    ∀ (fuel : Nat) (x : Int), -2147483648 ≤ x → (strokew - x).toNat < fuel →
      ∃ l, rectLoopX offx offy strokew strokeh spacing fuel x = some l ∧
        l.length ≤ 2 * (strokew - x).toNat ∧
        ∀ p ∈ l, p.pressure = 1 ∧ (p.y = offy - strokeh ∨ p.y = offy + strokeh) ∧
          offx + x ≤ p.x ∧ p.x < offx + strokew := by
  intro fuel
  induction fuel with
  | zero => intro x _ h; omega
  | succ f ih =>
    intro x hx0 h
    by_cases hx : x < strokew
    · have hw : wrapInt32 (x + spacing) = x + spacing :=
        wrapInt32_of_inRange (by omega) (by omega)
      obtain ⟨l, hl, hlen, hmem⟩ := ih (x + spacing) (by omega) (by omega)
      refine ⟨Point.mk (offx + x) (offy - strokeh) 1 :: Point.mk (offx + x) (offy + strokeh) 1 :: l,
        by simp [rectLoopX, hx, hw, hl], ?_, ?_⟩
      · simp only [List.length_cons]; omega
      · intro p hp
        simp only [List.mem_cons] at hp
        rcases hp with rfl | rfl | hp
        · exact ⟨rfl, Or.inl rfl, le_refl _, by simp only []; omega⟩
        · exact ⟨rfl, Or.inr rfl, le_refl _, by simp only []; omega⟩
        · obtain ⟨h1, h2, h3, h4⟩ := hmem p hp
          exact ⟨h1, h2, by omega, h4⟩
    · exact ⟨[], by simp [rectLoopX, hx], by simp, by simp⟩

theorem rectLoopY_terminates (offx offy strokew strokeh spacing : Int) (hsp : 1 ≤ spacing)
    (hb : strokeh + spacing ≤ 2147483648) :
    ∀ (fuel : Nat) (y : Int), -2147483648 ≤ y → (strokeh - y).toNat < fuel →
      ∃ l, rectLoopY offx offy strokew strokeh spacing fuel y = some l ∧
        l.length ≤ 2 * (strokeh - y).toNat ∧
        ∀ p ∈ l, p.pressure = 1 ∧ (p.x = offx ∨ p.x = offx + strokew) ∧
          offy + y ≤ p.y ∧ p.y < offy + strokeh := by
  intro fuel
  induction fuel with
  | zero => intro y _ h; omega
  | succ f ih =>
    intro y hy0 h
    by_cases hy : y < strokeh
    · have hw : wrapInt32 (y + spacing) = y + spacing :=
        wrapInt32_of_inRange (by omega) (by omega)
      obtain ⟨l, hl, hlen, hmem⟩ := ih (y + spacing) (by omega) (by omega)
      refine ⟨Point.mk offx (offy + y) 1 :: Point.mk (offx + strokew) (offy + y) 1 :: l,
        by simp [rectLoopY, hy, hw, hl], ?_, ?_⟩
      · simp only [List.length_cons]; omega
      · intro p hp
        simp only [List.mem_cons] at hp
        rcases hp with rfl | rfl | hp
        · exact ⟨rfl, Or.inl rfl, le_refl _, by simp only []; omega⟩
        · exact ⟨rfl, Or.inr rfl, le_refl _, by simp only []; omega⟩
        · obtain ⟨h1, h2, h3, h4⟩ := hmem p hp
          exact ⟨h1, h2, by omega, h4⟩
    · exact ⟨[], by simp [rectLoopY, hy], by simp, by simp⟩

/-- The first Rectangle loop runs as long as the Line loop with the same
bounds and paints, for each of its dabs, a dab of the same x on the top
edge. -/
theorem rectLoopX_of_lineLoop (offx offy strokew strokeh spacing : Int) :
    ∀ (fuel : Nat) (x : Int) (l : List Point),
      lineLoop offx offy strokew spacing fuel x = some l →
      ∃ l', rectLoopX offx offy strokew strokeh spacing fuel x = some l' ∧
        ∀ p ∈ l, Point.mk p.x (offy - strokeh) 1 ∈ l' := by
  intro fuel
  induction fuel with
  | zero => intro x l h; simp [lineLoop] at h
  | succ f ih =>
    intro x l h
    by_cases hx : x < strokew
    · simp only [lineLoop, hx, if_true, Option.map_eq_some'] at h
      obtain ⟨rest, hrest, rfl⟩ := h
      obtain ⟨l', hl', hmem⟩ := ih _ _ hrest
      refine ⟨Point.mk (offx + x) (offy - strokeh) 1 ::
        Point.mk (offx + x) (offy + strokeh) 1 :: l', by simp [rectLoopX, hx, hl'], ?_⟩
      intro p hp
      rcases List.mem_cons.mp hp with rfl | hp
      · exact List.mem_cons_self _ _
      · exact List.mem_cons_of_mem _ (List.mem_cons_of_mem _ (hmem p hp))
    · simp only [lineLoop, hx, if_false, Option.some.injEq] at h
      subst h
      exact ⟨[], by simp [rectLoopX, hx], by simp⟩

/-- The second Rectangle loop runs as long as the Line loop from `y` to
`strokeh`. -/
theorem rectLoopY_of_lineLoop (offx offy strokew strokeh spacing a b : Int) :
    ∀ (fuel : Nat) (y : Int) (l : List Point),
      lineLoop a b strokeh spacing fuel y = some l →
      ∃ l', rectLoopY offx offy strokew strokeh spacing fuel y = some l' := by
  intro fuel
  induction fuel with
  | zero => intro y l h; simp [lineLoop] at h
  | succ f ih =>
    intro y l h
    by_cases hy : y < strokeh
    · simp only [lineLoop, hy, if_true, Option.map_eq_some'] at h
      obtain ⟨rest, hrest, rfl⟩ := h
      obtain ⟨l', hl'⟩ := ih _ _ hrest
      exact ⟨Point.mk offx (offy + y) 1 :: Point.mk (offx + strokew) (offy + y) 1 :: l',
        by simp [rectLoopY, hy, hl']⟩
    · exact ⟨[], by simp [rectLoopY, hy]⟩

/-- C5, amended: for every shape, with spacing and radius not negative and
their product not above the largest 32-bit `int` (no overflow at line 113),
and 32-bit width and height not negative, `updatePreview` terminates (fuel
above `strokew + 2*strokeh` is enough) and paints at most `strokew` dabs for
Stroke and Line and at most `2*strokew + 4*strokeh` dabs for Rectangle. -/
theorem C5_terminates_bounded (wave : Int → Int) (s : BrushPreview) (fuel : Nat)
    (hs : 0 ≤ s.brush_.spacing) (hr : 0 ≤ s.brush_.radius 1)
    (hprod : s.brush_.spacing * s.brush_.radius 1 ≤ 2147483647)
    (hw : 0 ≤ s.width) (hh : 0 ≤ s.height)
    (hwidth : s.width ≤ 2147483647) (hheight : s.height ≤ 2147483647)
    (hfuel : (s.strokew + 2 * s.strokeh).toNat < fuel) :
    ∃ dabs, updatePreview fuel wave s = some dabs ∧
      (dabs.length : Int) ≤
        match s.shape_ with
        | PreviewShape.Stroke => s.strokew
        | PreviewShape.Line => s.strokew
        | PreviewShape.Rectangle => 2 * s.strokew + 4 * s.strokeh := by
  have hsw := strokew_nonneg s hw
  have hsh := strokeh_nonneg s hh
  have hsw2 := strokew_le s hwidth
  have hsh2 := strokeh_le s hh hheight
  obtain ⟨-, hsp0, hsp1⟩ := spacing_of_inRange s hs hr hprod
  have hpos := coerced_spacing_pos s.spacing hsp0
  have hle : (if s.spacing = 0 then 1 else s.spacing) ≤ 21474836 := by split <;> omega
  cases hshape : s.shape_ with
  | Stroke =>
    obtain ⟨l, hl, hlen⟩ := strokeLoop_terminates wave s.offx s.offy s.strokew s.spacing
      fuel 0 0 0 0 (by omega)
    exact ⟨l, by simp [updatePreview, hshape, hl], by simp only []; omega⟩
  | Line =>
    obtain ⟨l, hl, hlen⟩ := lineLoop_terminates s.offx s.offy s.strokew _ hpos (by omega)
      fuel 0 (by norm_num) (by omega)
    exact ⟨l, by simp [updatePreview, hshape, hl], by simp only []; omega⟩
  | Rectangle =>
    obtain ⟨l1, hl1, hlen1, -⟩ := rectLoopX_terminates s.offx s.offy s.strokew s.strokeh _ hpos
      (by omega) fuel 0 (by norm_num) (by omega)
    obtain ⟨l2, hl2, hlen2, -⟩ := rectLoopY_terminates s.offx s.offy s.strokew s.strokeh _ hpos
      (by omega) fuel (-s.strokeh) (by omega) (by omega)
    refine ⟨l1 ++ l2, by simp [updatePreview, hshape, hl1, hl2], ?_⟩
    simp only [List.length_append]
    push_cast
    omega

/-- C5 as amended, on a 32 x 32 preview of the Rectangle shape: at most 80
dabs. -/
theorem C5_terminates_bounded_witness :
    ∃ dabs, updatePreview 100 wave24 (examplePreview PreviewShape.Rectangle 32 32) = some dabs ∧
      (dabs.length : Int) ≤ 80 :=
  C5_terminates_bounded wave24 (examplePreview PreviewShape.Rectangle 32 32) 100
    (by decide) (by rw [Brush.radius_one]; decide) (by rw [Brush.radius_one]; decide)
    (by decide) (by decide) (by decide) (by decide) (by decide)

/-- C5 is false as stated: on a 32 x 32 preview of the Line shape with spacing
100 and radius 21474837 (width, height, spacing and radius not negative)
`updatePreview` paints 101 dabs, more than `strokew = 24`. -/
theorem C5_terminates_bounded_overflow_counterexample :
    0 ≤ (overflowPreview PreviewShape.Line).brush_.spacing ∧
    0 ≤ (overflowPreview PreviewShape.Line).brush_.radius 1 ∧
    0 ≤ (overflowPreview PreviewShape.Line).width ∧
    0 ≤ (overflowPreview PreviewShape.Line).height ∧
    ∃ dabs, updatePreview 102 wave24 (overflowPreview PreviewShape.Line) = some dabs ∧
      dabs.length = 101 ∧
      ¬ ((dabs.length : Int) ≤ (overflowPreview PreviewShape.Line).strokew) := by
  refine ⟨by decide, by rw [overflowPreview_radius]; decide, by decide, by decide,
    _, overflow_line_dabs, by simp, ?_⟩
  have hw : (overflowPreview PreviewShape.Line).strokew = 24 := by decide
  rw [hw]
  simp

/-! ## The Rectangle shape -/

/-- C9, amended: for the Rectangle shape, with spacing and radius not negative
and their product not above the largest 32-bit `int` (no overflow at line
113), and 32-bit width and height not negative, `updatePreview` terminates and
every dab has pressure 1 and lies on an edge of the rectangle with corners
`(offx, offy - strokeh)` and `(offx + strokew, offy + strokeh)`; the left and
right margins of that rectangle in the area differ by at most 1, and so do the
top and bottom margins. -/
theorem C9_rectangle_edges (wave : Int → Int) (s : BrushPreview) (fuel : Nat)
    (hshape : s.shape_ = PreviewShape.Rectangle)
    (hs : 0 ≤ s.brush_.spacing) (hr : 0 ≤ s.brush_.radius 1)
    (hprod : s.brush_.spacing * s.brush_.radius 1 ≤ 2147483647)
    (hw : 0 ≤ s.width) (hh : 0 ≤ s.height)
    (hwidth : s.width ≤ 2147483647) (hheight : s.height ≤ 2147483647)
    (hfuel : (s.strokew + 2 * s.strokeh).toNat < fuel) :
    (∃ dabs, updatePreview fuel wave s = some dabs ∧
      ∀ p ∈ dabs, p.pressure = 1 ∧
        (((p.y = s.offy - s.strokeh ∨ p.y = s.offy + s.strokeh) ∧
            s.offx ≤ p.x ∧ p.x ≤ s.offx + s.strokew) ∨
          ((p.x = s.offx ∨ p.x = s.offx + s.strokew) ∧
            s.offy - s.strokeh ≤ p.y ∧ p.y ≤ s.offy + s.strokeh))) ∧
    |s.offx - (s.width - (s.offx + s.strokew))| ≤ 1 ∧
    |(s.offy - s.strokeh) - (s.height - (s.offy + s.strokeh))| ≤ 1 := by
  have hsw := strokew_nonneg s hw
  have hsh := strokeh_nonneg s hh
  have hsw2 := strokew_le s hwidth
  have hsh2 := strokeh_le s hh hheight
  obtain ⟨-, hsp0, hsp1⟩ := spacing_of_inRange s hs hr hprod
  have hpos := coerced_spacing_pos s.spacing hsp0
  have hle : (if s.spacing = 0 then 1 else s.spacing) ≤ 21474836 := by split <;> omega
  refine ⟨?_, ?_, ?_⟩
  · obtain ⟨l1, hl1, -, hm1⟩ := rectLoopX_terminates s.offx s.offy s.strokew s.strokeh _ hpos
      (by omega) fuel 0 (by norm_num) (by omega)
    obtain ⟨l2, hl2, -, hm2⟩ := rectLoopY_terminates s.offx s.offy s.strokew s.strokeh _ hpos
      (by omega) fuel (-s.strokeh) (by omega) (by omega)
    refine ⟨l1 ++ l2, by simp [updatePreview, hshape, hl1, hl2], ?_⟩
    intro p hp
    rcases List.mem_append.mp hp with hp | hp
    · obtain ⟨h1, h2, h3, h4⟩ := hm1 p hp
      exact ⟨h1, Or.inl ⟨h2, by omega, by omega⟩⟩
    · obtain ⟨h1, h2, h3, h4⟩ := hm2 p hp
      exact ⟨h1, Or.inr ⟨h2, by omega, by omega⟩⟩
  · unfold BrushPreview.offx BrushPreview.strokew
    rw [Int.tdiv_eq_ediv hw (by norm_num), Int.tdiv_eq_ediv hw (by norm_num), abs_le]
    omega
  · unfold BrushPreview.offy BrushPreview.strokeh
    rw [Int.tdiv_eq_ediv hh (by norm_num), Int.tdiv_eq_ediv hh (by norm_num), abs_le]
    omega

/-- C9 as amended, on a 32 x 32 preview: the rectangle with corners (4, 8) and
(28, 24). -/
theorem C9_rectangle_edges_witness :
    (∃ dabs, updatePreview 100 wave24 (examplePreview PreviewShape.Rectangle 32 32) = some dabs ∧
      ∀ p ∈ dabs, p.pressure = 1 ∧
        (((p.y = 8 ∨ p.y = 24) ∧ 4 ≤ p.x ∧ p.x ≤ 28) ∨
          ((p.x = 4 ∨ p.x = 28) ∧ 8 ≤ p.y ∧ p.y ≤ 24))) ∧
    |(4 : Int) - (32 - 28)| ≤ 1 ∧ |(8 : Int) - (32 - 24)| ≤ 1 :=
  C9_rectangle_edges wave24 (examplePreview PreviewShape.Rectangle 32 32) 100 rfl
    (by decide) (by rw [Brush.radius_one]; decide) (by rw [Brush.radius_one]; decide)
    (by decide) (by decide) (by decide) (by decide) (by decide)

/-- C9 is false as stated: on a 32 x 32 preview of the Rectangle shape with
spacing 100 and radius 21474837 (width, height, spacing and radius not
negative) `updatePreview` terminates and paints a dab at (-21474831, 8), left
of the rectangle with corners (4, 8) and (28, 24), on none of its edges. -/
theorem C9_rectangle_edges_overflow_counterexample :
    0 ≤ (overflowPreview PreviewShape.Rectangle).brush_.spacing ∧
    0 ≤ (overflowPreview PreviewShape.Rectangle).brush_.radius 1 ∧
    0 ≤ (overflowPreview PreviewShape.Rectangle).width ∧
    0 ≤ (overflowPreview PreviewShape.Rectangle).height ∧
    ∃ dabs, updatePreview 102 wave24 (overflowPreview PreviewShape.Rectangle) = some dabs ∧
      ∃ p ∈ dabs, p = Point.mk (-21474831) 8 1 ∧
        ¬ (((p.y = (overflowPreview PreviewShape.Rectangle).offy -
                (overflowPreview PreviewShape.Rectangle).strokeh ∨
              p.y = (overflowPreview PreviewShape.Rectangle).offy +
                (overflowPreview PreviewShape.Rectangle).strokeh) ∧
            (overflowPreview PreviewShape.Rectangle).offx ≤ p.x ∧
            p.x ≤ (overflowPreview PreviewShape.Rectangle).offx +
              (overflowPreview PreviewShape.Rectangle).strokew) ∨
          ((p.x = (overflowPreview PreviewShape.Rectangle).offx ∨
              p.x = (overflowPreview PreviewShape.Rectangle).offx +
                (overflowPreview PreviewShape.Rectangle).strokew) ∧
            (overflowPreview PreviewShape.Rectangle).offy -
                (overflowPreview PreviewShape.Rectangle).strokeh ≤ p.y ∧
            p.y ≤ (overflowPreview PreviewShape.Rectangle).offy +
              (overflowPreview PreviewShape.Rectangle).strokeh)) := by
  have hsh : (overflowPreview PreviewShape.Rectangle).shape_ = PreviewShape.Rectangle := rfl
  have hw : (overflowPreview PreviewShape.Rectangle).strokew = 24 := by decide
  have hh : (overflowPreview PreviewShape.Rectangle).strokeh = 8 := by decide
  have hx : (overflowPreview PreviewShape.Rectangle).offx = 4 := by decide
  have hy : (overflowPreview PreviewShape.Rectangle).offy = 16 := by decide
  have hlx := lineLoop_eq 4 16 24 (-21474835) 101 102 0 (by decide)
    (fun k hk => by omega) (fun k hk => by omega) (by decide) (by decide) (by decide)
  have hly := lineLoop_eq 4 16 8 (-21474835) 101 102 (-8) (by decide)
    (fun k hk => by omega) (fun k hk => by omega) (by decide) (by decide) (by decide)
  obtain ⟨top, htop, hmem⟩ := rectLoopX_of_lineLoop 4 16 24 8 (-21474835) 102 0 _ hlx
  obtain ⟨side, hside⟩ := rectLoopY_of_lineLoop 4 16 24 8 (-21474835) 4 16 102 (-8) _ hly
  have hp : Point.mk (-21474831) 8 1 ∈ top := by
    have := hmem (Point.mk (4 + (0 + ((1 : Nat) : Int) * (-21474835))) 16 1)
      (List.mem_map.mpr ⟨1, by simp, rfl⟩)
    simpa using this
  refine ⟨by decide, by rw [overflowPreview_radius]; decide, by decide, by decide,
    top ++ side, ?_, Point.mk (-21474831) 8 1, List.mem_append_left _ hp, rfl, ?_⟩
  · simp only [updatePreview, hsh, overflowPreview_spacing, hw, hh, hx, hy]
    simp [htop, hside]
  · rw [hw, hh, hx, hy]
    decide

/-! ## The Stroke shape without spacing -/

theorem strokeLoop_threshold_zero (wave : Int → Int) (offx offy strokew : Int) (n : Nat) :
    ∀ (fuel : Nat) (x lastx lasty : Int), n < fuel → (strokew - x).toNat = n →
      strokeLoop wave offx offy strokew 0 fuel x lastx lasty 0 =
        some ((List.range n).map fun (k : Nat) =>
          Point.mk (offx + (x + (k : Int))) (offy + wave (x + (k : Int)))
            (strokePressure (((x + (k : Int) : Int) : ℚ) / (strokew : ℚ)))) := by
  induction n with
  | zero =>
    intro fuel x lastx lasty hf hn
    obtain ⟨f, rfl⟩ : ∃ f, fuel = f + 1 := ⟨fuel - 1, by omega⟩
    have : ¬ x < strokew := by omega
    simp [strokeLoop, this]
  | succ n ih =>
    intro fuel x lastx lasty hf hn
    obtain ⟨f, rfl⟩ : ∃ f, fuel = f + 1 := ⟨fuel - 1, by omega⟩
    have h0 : x < strokew := by omega
    have hrec := ih f (x + 1) x (wave x) (by omega) (by omega)
    simp only [strokeLoop, h0, if_true, ge_iff_le, le_refl, hrec, Option.map_some',
      List.range_succ_eq_map, List.map_cons, List.map_map]
    congr 1
    congr 1
    · simp
    · apply List.map_congr_left
      intro k _
      simp only [Function.comp, Nat.cast_succ]
      have e : x + 1 + (k : Int) = x + ((k : Int) + 1) := by ring
      rw [e]

/-- C1: for the Stroke shape with threshold `trunc (spacing * radius(1) / 100)`
equal to 0, `updatePreview` paints one dab at every path point
`x = 0, 1, ..., strokew - 1`, in this order (`strokew` dabs, the first point
included). -/
theorem C1_stroke_threshold_zero (wave : Int → Int) (s : BrushPreview) (fuel : Nat)
    (hshape : s.shape_ = PreviewShape.Stroke)
    (hthreshold : Int.tdiv (s.brush_.spacing * s.brush_.radius 1) 100 = 0)
    (hw : 0 ≤ s.strokew) (hfuel : s.strokew.toNat < fuel) :
    updatePreview fuel wave s =
      some ((List.range s.strokew.toNat).map fun (k : Nat) =>
        Point.mk (s.offx + (k : Int)) (s.offy + wave (k : Int))
          (strokePressure (((k : Int) : ℚ) / (s.strokew : ℚ)))) ∧
    ((List.range s.strokew.toNat).map fun (k : Nat) =>
        Point.mk (s.offx + (k : Int)) (s.offy + wave (k : Int))
          (strokePressure (((k : Int) : ℚ) / (s.strokew : ℚ)))).length = s.strokew := by
  have hsmall : -100 < s.brush_.spacing * s.brush_.radius 1 ∧
      s.brush_.spacing * s.brush_.radius 1 < 100 := by
    rcases le_or_lt 0 (s.brush_.spacing * s.brush_.radius 1) with h | h
    · rw [Int.tdiv_eq_ediv h (by norm_num)] at hthreshold
      omega
    · have e : Int.tdiv (s.brush_.spacing * s.brush_.radius 1) 100 =
          -((-(s.brush_.spacing * s.brush_.radius 1)) / 100) := by
        rw [← Int.tdiv_eq_ediv (by omega) (by norm_num), Int.neg_tdiv, neg_neg]
      rw [e] at hthreshold
      omega
  have hcode : s.spacing = 0 := by
    unfold BrushPreview.spacing
    rw [wrapInt32_of_inRange (by omega) (by omega)]
    exact hthreshold
  have h := strokeLoop_threshold_zero wave s.offx s.offy s.strokew s.strokew.toNat fuel 0 0 0
    hfuel (by simp)
  refine ⟨?_, ?_⟩
  · simp only [updatePreview, hshape, hcode, h]
    simp
  · simp [Int.toNat_of_nonneg hw]

/-- C1 on a 32 x 256 preview with spacing 0: 24 dabs, at x = 0, ..., 23. -/
theorem C1_stroke_threshold_zero_witness :
    updatePreview 25 wave24 (setSpacing 0 (examplePreview PreviewShape.Stroke 32 256)) =
      some ((List.range 24).map fun (k : Nat) =>
        Point.mk (4 + (k : Int)) (128 + wave24 (k : Int))
          (strokePressure (((k : Int) : ℚ) / ((24 : Int) : ℚ)))) ∧
    ((List.range 24).map fun (k : Nat) =>
        Point.mk (4 + (k : Int)) (128 + wave24 (k : Int))
          (strokePressure (((k : Int) : ℚ) / ((24 : Int) : ℚ)))).length = (24 : Int) :=
  C1_stroke_threshold_zero wave24 (setSpacing 0 (examplePreview PreviewShape.Stroke 32 256)) 25 rfl
    (by rw [Brush.radius_one]; decide)
    (by decide) (by decide)

/-! ## Pressure toggles -/

theorem interpolate_one (v1 v2 : ℚ) : interpolate v1 v2 1 = v1 := by
  unfold interpolate; ring

theorem size_step (c : Call) (t : BrushPreview) (hc : c.keepsSizeFlag = true)
    (hf : t.sizepressure_ = false) (he : t.brush_.radius2 = t.brush_.radius1) :
    (c.apply t).sizepressure_ = false ∧
      (c.apply t).brush_.radius2 = (c.apply t).brush_.radius1 ∧
      (c.apply t).brush_.radius1 = (lastSetSize [c]).getD t.brush_.radius1 := by
  cases c <;> simp [Call.keepsSizeFlag] at hc <;>
    simp [Call.apply, lastSetSize, setSize, setOpacity, setHardness, setSpacing, setColor1,
      setColor2, setOpacityPressure, setHardnessPressure, setColorPressure, Brush.setRadius,
      Brush.setRadius2, Brush.setOpacity, Brush.setOpacity2, Brush.setHardness,
      Brush.setHardness2, Brush.setColor, Brush.setColor2, Brush.setSpacing, hf, he] <;>
    (try split) <;> simp [hf, he]

theorem opacity_step (c : Call) (t : BrushPreview) (hc : c.keepsOpacityFlag = true)
    (hf : t.opacitypressure_ = false) (he : t.brush_.opacity2 = t.brush_.opacity1) :
    (c.apply t).opacitypressure_ = false ∧
      (c.apply t).brush_.opacity2 = (c.apply t).brush_.opacity1 ∧
      (c.apply t).brush_.opacity1 =
        ((lastSetOpacity [c]).map fun o : Int => (o : ℚ) / 100).getD t.brush_.opacity1 := by
  cases c <;> simp [Call.keepsOpacityFlag] at hc <;>
    simp [Call.apply, lastSetOpacity, setSize, setOpacity, setHardness, setSpacing, setColor1,
      setColor2, setSizePressure, setHardnessPressure, setColorPressure, Brush.setRadius,
      Brush.setRadius2, Brush.setOpacity, Brush.setOpacity2, Brush.setHardness,
      Brush.setHardness2, Brush.setColor, Brush.setColor2, Brush.setSpacing, hf, he] <;>
    (try split) <;> simp [hf, he]

theorem hardness_step (c : Call) (t : BrushPreview) (hc : c.keepsHardnessFlag = true)
    (hf : t.hardnesspressure_ = false) (he : t.brush_.hardness2 = t.brush_.hardness1) :
    (c.apply t).hardnesspressure_ = false ∧
      (c.apply t).brush_.hardness2 = (c.apply t).brush_.hardness1 ∧
      (c.apply t).brush_.hardness1 =
        ((lastSetHardness [c]).map fun h : Int => (h : ℚ) / 100).getD t.brush_.hardness1 := by
  cases c <;> simp [Call.keepsHardnessFlag] at hc <;>
    simp [Call.apply, lastSetHardness, setSize, setOpacity, setHardness, setSpacing, setColor1,
      setColor2, setSizePressure, setOpacityPressure, setColorPressure, Brush.setRadius,
      Brush.setRadius2, Brush.setOpacity, Brush.setOpacity2, Brush.setHardness,
      Brush.setHardness2, Brush.setColor, Brush.setColor2, Brush.setSpacing, hf, he] <;>
    (try split) <;> simp [hf, he]

/-- While size pressure is off, both radius endpoints follow the last
`setSize` call. -/
theorem size_after_calls (calls : List Call) :
    ∀ t : BrushPreview, (∀ c ∈ calls, c.keepsSizeFlag = true) →
      t.sizepressure_ = false → t.brush_.radius2 = t.brush_.radius1 →
      (runCalls calls t).sizepressure_ = false ∧
        (runCalls calls t).brush_.radius2 = (runCalls calls t).brush_.radius1 ∧
        (runCalls calls t).brush_.radius1 = (lastSetSize calls).getD t.brush_.radius1 := by
  induction calls with
  | nil => intro t _ hf he; exact ⟨hf, he, rfl⟩
  | cons c rest ih =>
    intro t hall hf he
    obtain ⟨h1, h2, h3⟩ := size_step c t (hall c (List.mem_cons_self _ _)) hf he
    obtain ⟨g1, g2, g3⟩ := ih (c.apply t) (fun k hk => hall k (List.mem_cons_of_mem _ hk)) h1 h2
    have hrun : runCalls (c :: rest) t = runCalls rest (c.apply t) := rfl
    rw [hrun]
    refine ⟨g1, g2, ?_⟩
    rw [g3, h3]
    simp only [lastSetSize]
    cases lastSetSize rest <;> rfl

/-- While opacity pressure is off, both opacity endpoints follow the last
`setOpacity` call. -/
theorem opacity_after_calls (calls : List Call) :
    ∀ t : BrushPreview, (∀ c ∈ calls, c.keepsOpacityFlag = true) →
      t.opacitypressure_ = false → t.brush_.opacity2 = t.brush_.opacity1 →
      (runCalls calls t).opacitypressure_ = false ∧
        (runCalls calls t).brush_.opacity2 = (runCalls calls t).brush_.opacity1 ∧
        (runCalls calls t).brush_.opacity1 =
          ((lastSetOpacity calls).map fun o : Int => (o : ℚ) / 100).getD t.brush_.opacity1 := by
  induction calls with
  | nil => intro t _ hf he; exact ⟨hf, he, rfl⟩
  | cons c rest ih =>
    intro t hall hf he
    obtain ⟨h1, h2, h3⟩ := opacity_step c t (hall c (List.mem_cons_self _ _)) hf he
    obtain ⟨g1, g2, g3⟩ := ih (c.apply t) (fun k hk => hall k (List.mem_cons_of_mem _ hk)) h1 h2
    have hrun : runCalls (c :: rest) t = runCalls rest (c.apply t) := rfl
    rw [hrun]
    refine ⟨g1, g2, ?_⟩
    rw [g3, h3]
    simp only [lastSetOpacity]
    cases lastSetOpacity rest <;> rfl

/-- While hardness pressure is off, both hardness endpoints follow the last
`setHardness` call. -/
theorem hardness_after_calls (calls : List Call) :
    ∀ t : BrushPreview, (∀ c ∈ calls, c.keepsHardnessFlag = true) →
      t.hardnesspressure_ = false → t.brush_.hardness2 = t.brush_.hardness1 →
      (runCalls calls t).hardnesspressure_ = false ∧
        (runCalls calls t).brush_.hardness2 = (runCalls calls t).brush_.hardness1 ∧
        (runCalls calls t).brush_.hardness1 =
          ((lastSetHardness calls).map fun h : Int => (h : ℚ) / 100).getD t.brush_.hardness1 := by
  induction calls with
  | nil => intro t _ hf he; exact ⟨hf, he, rfl⟩
  | cons c rest ih =>
    intro t hall hf he
    obtain ⟨h1, h2, h3⟩ := hardness_step c t (hall c (List.mem_cons_self _ _)) hf he
    obtain ⟨g1, g2, g3⟩ := ih (c.apply t) (fun k hk => hall k (List.mem_cons_of_mem _ hk)) h1 h2
    have hrun : runCalls (c :: rest) t = runCalls rest (c.apply t) := rfl
    rw [hrun]
    refine ⟨g1, g2, ?_⟩
    rw [g3, h3]
    simp only [lastSetHardness]
    cases lastSetHardness rest <;> rfl

/-- The state after `setSizePressure(false)`: the flag is off and `radius2`
is the brush's radius at pressure 1.0, which is `radius1`; nothing else
changes. -/
theorem setSizePressure_off (s : BrushPreview) :
    setSizePressure false s =
      { s with sizepressure_ := false,
               brush_ := { s.brush_ with radius2 := s.brush_.radius1 } } := by
  simp [setSizePressure, Brush.setRadius2, Brush.radius_one]

/-- The state after `setOpacityPressure(false)`. -/
theorem setOpacityPressure_off (s : BrushPreview) :
    setOpacityPressure false s =
      { s with opacitypressure_ := false,
               brush_ := { s.brush_ with opacity2 := s.brush_.opacity1 } } := by
  simp [setOpacityPressure, Brush.setOpacity2, Brush.opacity, interpolate_one]

/-- The state after `setHardnessPressure(false)`. -/
theorem setHardnessPressure_off (s : BrushPreview) :
    setHardnessPressure false s =
      { s with hardnesspressure_ := false,
               brush_ := { s.brush_ with hardness2 := s.brush_.hardness1 } } := by
  simp [setHardnessPressure, Brush.setHardness2, Brush.hardness, interpolate_one]

/-- C6: for size, opacity and hardness, `set<Attr>Pressure(false)` switches
the flag off and sets the "2" endpoint to the brush's value at pressure 1.0,
which is the current "1" endpoint, and changes nothing else (the "1" endpoint
and every other field of the brush and of the widget are kept); after any
further sequence of `setSize`, `setOpacity`, `setHardness`, `setSpacing`,
`setColor1`, `setColor2` and pressure toggles of the other attributes, both
endpoints of the attribute are the value of the last set call of that
attribute in the sequence (`setSize n` gives `n`, `setOpacity n` and
`setHardness n` give `n / 100`), or the "1" endpoint from before the toggle
when there is none; in particular `setSize(n)` after `setSizePressure(false)`
leaves `radius = radius2 = n`. -/
theorem C6_pressure_off_snaps (s : BrushPreview) (calls : List Call) :
    (setSizePressure false s =
        { s with sizepressure_ := false,
                 brush_ := { s.brush_ with radius2 := s.brush_.radius1 } } ∧
      s.brush_.radius 1 = s.brush_.radius1 ∧
      setOpacityPressure false s =
        { s with opacitypressure_ := false,
                 brush_ := { s.brush_ with opacity2 := s.brush_.opacity1 } } ∧
      s.brush_.opacity 1 = s.brush_.opacity1 ∧
      setHardnessPressure false s =
        { s with hardnesspressure_ := false,
                 brush_ := { s.brush_ with hardness2 := s.brush_.hardness1 } } ∧
      s.brush_.hardness 1 = s.brush_.hardness1) ∧
    ((∀ c ∈ calls, c.keepsSizeFlag = true) →
      (runCalls calls (setSizePressure false s)).brush_.radius1 =
        (lastSetSize calls).getD s.brush_.radius1 ∧
      (runCalls calls (setSizePressure false s)).brush_.radius2 =
        (lastSetSize calls).getD s.brush_.radius1) ∧
    ((∀ c ∈ calls, c.keepsOpacityFlag = true) →
      (runCalls calls (setOpacityPressure false s)).brush_.opacity1 =
        ((lastSetOpacity calls).map fun o : Int => (o : ℚ) / 100).getD s.brush_.opacity1 ∧
      (runCalls calls (setOpacityPressure false s)).brush_.opacity2 =
        ((lastSetOpacity calls).map fun o : Int => (o : ℚ) / 100).getD s.brush_.opacity1) ∧
    ((∀ c ∈ calls, c.keepsHardnessFlag = true) →
      (runCalls calls (setHardnessPressure false s)).brush_.hardness1 =
        ((lastSetHardness calls).map fun h : Int => (h : ℚ) / 100).getD s.brush_.hardness1 ∧
      (runCalls calls (setHardnessPressure false s)).brush_.hardness2 =
        ((lastSetHardness calls).map fun h : Int => (h : ℚ) / 100).getD s.brush_.hardness1) ∧
    (∀ n : Int, (setSize n (setSizePressure false s)).brush_.radius1 = n ∧
      (setSize n (setSizePressure false s)).brush_.radius2 = n) := by
  refine ⟨⟨setSizePressure_off s, Brush.radius_one _, setOpacityPressure_off s, ?_,
    setHardnessPressure_off s, ?_⟩, fun h => ?_, fun h => ?_, fun h => ?_, fun n => ?_⟩
  · simp [Brush.opacity, interpolate_one]
  · simp [Brush.hardness, interpolate_one]
  · obtain ⟨-, g2, g3⟩ := size_after_calls calls (setSizePressure false s) h
      (by rw [setSizePressure_off]) (by rw [setSizePressure_off])
    rw [g2, g3, setSizePressure_off]
    exact ⟨rfl, rfl⟩
  · obtain ⟨-, g2, g3⟩ := opacity_after_calls calls (setOpacityPressure false s) h
      (by rw [setOpacityPressure_off]) (by rw [setOpacityPressure_off])
    rw [g2, g3, setOpacityPressure_off]
    exact ⟨rfl, rfl⟩
  · obtain ⟨-, g2, g3⟩ := hardness_after_calls calls (setHardnessPressure false s) h
      (by rw [setHardnessPressure_off]) (by rw [setHardnessPressure_off])
    rw [g2, g3, setHardnessPressure_off]
    exact ⟨rfl, rfl⟩
  · simp [setSize, setSizePressure, Brush.setRadius, Brush.setRadius2]

/-- C6 on a brush with radius 10 and stale radius2 = 3: switching size
pressure off and then calling `setOpacity 50`, `setColorPressure true`,
`setSize 7`, `setHardness 20` leaves radius and radius2 equal to 7. -/
theorem C6_pressure_off_snaps_witness :
    (runCalls [Call.setOpacity 50, Call.setColorPressure true, Call.setSize 7,
          Call.setHardness 20]
        (setSizePressure false
          (setBrush (exampleBrush.setRadius2 3)
            (examplePreview PreviewShape.Stroke 32 32)))).brush_.radius1 = 7 ∧
    (runCalls [Call.setOpacity 50, Call.setColorPressure true, Call.setSize 7,
          Call.setHardness 20]
        (setSizePressure false
          (setBrush (exampleBrush.setRadius2 3)
            (examplePreview PreviewShape.Stroke 32 32)))).brush_.radius2 = 7 :=
  (C6_pressure_off_snaps
    (setBrush (exampleBrush.setRadius2 3) (examplePreview PreviewShape.Stroke 32 32))
    [Call.setOpacity 50, Call.setColorPressure true, Call.setSize 7,
      Call.setHardness 20]).2.1 (by decide)

/-! ## Colours -/

theorem runCalls_color2 (calls : List Call) :
    ∀ s : BrushPreview,
      (runCalls calls s).color2_ = (lastSetColor2 calls).getD s.color2_ := by
  induction calls with
  | nil => intro s; rfl
  | cons c rest ih =>
    intro s
    have h := ih (c.apply s)
    simp only [runCalls, List.foldl_cons] at h ⊢
    rw [h]
    simp only [lastSetColor2]
    cases hl : lastSetColor2 rest with
    | some color => simp
    | none =>
      cases c <;> simp [Call.apply, setPreviewShape, setSize, setOpacity, setHardness, setSpacing,
        setColor1, setColor2, setBrush, setSizePressure, setOpacityPressure, setHardnessPressure,
        setColorPressure] <;> (try split) <;> simp

theorem runCalls_append (l1 l2 : List Call) (s : BrushPreview) :
    runCalls (l1 ++ l2) s = runCalls l2 (runCalls l1 s) := by
  simp [runCalls, List.foldl_append]

/-- C8: after any sequence of calls with at least one `setColor2` followed by
`setColorPressure(true)`, the brush's color2 is the argument of the last
`setColor2` call; a `setColor2` call made while colour pressure is off records
its argument and leaves the brush unchanged. -/
theorem C8_color2_tracked (s : BrushPreview) (calls : List Call) (color : QColor)
    (hlast : lastSetColor2 calls = some color) :
    (runCalls (calls ++ [Call.setColorPressure true]) s).brush_.color2 = color ∧
    (∀ (t : BrushPreview) (c : QColor), t.colorpressure_ = false →
      (setColor2 c t).brush_ = t.brush_ ∧ (setColor2 c t).color2_ = c) := by
  refine ⟨?_, ?_⟩
  · rw [runCalls_append]
    have h := runCalls_color2 calls s
    rw [hlast] at h
    simp only [Option.getD_some] at h
    have key : ∀ t : BrushPreview,
        (runCalls [Call.setColorPressure true] t).brush_.color2 = t.color2_ := by
      intro t
      simp [runCalls, Call.apply, setColorPressure, Brush.setColor2]
    rw [key, h]
  · intro t c ht
    simp [setColor2, ht]

/-- C8 on a sequence whose `setColor2` call is made while colour pressure is
off. -/
theorem C8_color2_tracked_witness :
    (runCalls ([Call.setColor1 ⟨1, 2, 3⟩, Call.setColorPressure false, Call.setColor2 ⟨9, 9, 9⟩,
        Call.setColor1 ⟨4, 5, 6⟩] ++ [Call.setColorPressure true])
      (examplePreview PreviewShape.Stroke 32 32)).brush_.color2 = ⟨9, 9, 9⟩ :=
  (C8_color2_tracked (examplePreview PreviewShape.Stroke 32 32)
    [Call.setColor1 ⟨1, 2, 3⟩, Call.setColorPressure false, Call.setColor2 ⟨9, 9, 9⟩,
      Call.setColor1 ⟨4, 5, 6⟩] ⟨9, 9, 9⟩ rfl).1

theorem setColorPressure_off_color2 (s : BrushPreview) :
    (setColorPressure false s).brush_.color2 = s.color1_ ∧
      (setColorPressure false s).brush_.color1 = s.brush_.color1 := by
  simp [setColorPressure, Brush.setColor2]

/-- C7: on the state reached by `setColor1(black)` and then `setBrush` of a
red brush, `setColorPressure(false)` sets the brush's color2 to the recorded
black while its color1 is red: the two endpoints differ. -/
theorem C7_stale_after_setBrush :
    (setColorPressure false (setBrush redBrush
        (setColor1 ⟨0, 0, 0⟩ (examplePreview PreviewShape.Stroke 32 32)))).brush_.color2 =
      ⟨0, 0, 0⟩ ∧
    (setColorPressure false (setBrush redBrush
        (setColor1 ⟨0, 0, 0⟩ (examplePreview PreviewShape.Stroke 32 32)))).brush_.color1 =
      ⟨255, 0, 0⟩ ∧
    (setColorPressure false (setBrush redBrush
        (setColor1 ⟨0, 0, 0⟩ (examplePreview PreviewShape.Stroke 32 32)))).brush_.color2 ≠
      (setColorPressure false (setBrush redBrush
        (setColor1 ⟨0, 0, 0⟩ (examplePreview PreviewShape.Stroke 32 32)))).brush_.color1 := by
  refine ⟨rfl, rfl, ?_⟩
  decide

/-! ## The Stroke shape with a positive threshold -/

theorem sum_Ico_int_succ (f : Int → Int) (a b : Int) (h : a ≤ b) :
    ∑ k in Finset.Ico a (b + 1), f k = ∑ k in Finset.Ico a b, f k + f b := by
  have e : Finset.Ico a (b + 1) = insert b (Finset.Ico a b) := by
    ext k
    simp only [Finset.mem_Ico, Finset.mem_insert]
    omega
  rw [e, Finset.sum_insert (by simp)]
  ring

theorem accumulated_self (wave : Int → Int) (i j : Int) (h : j ≤ i + 1) :
    accumulated wave i j = 0 := by
  unfold accumulated
  rw [Finset.Ico_eq_empty (by omega)]
  rfl

theorem accumulated_succ (wave : Int → Int) (i j : Int) (h : i < j) :
    accumulated wave i (j + 1) = accumulated wave i j + stepLength wave j := by
  unfold accumulated
  exact sum_Ico_int_succ _ _ _ (by omega)

/-- After a dab at `d`, with `distance` the accumulated rounded length since
that dab, the dabs that follow are chained to `d` and to each other by the
threshold condition. -/
theorem strokeLoop_chain_from (wave : Int → Int) (offx offy strokew spacing : Int)
    (hT : 0 < spacing) :
    ∀ (fuel : Nat) (x distance : Int) (d : Point) (l : List Point),
      d.x - offx < x → distance = accumulated wave (d.x - offx) x →
      accumulated wave (d.x - offx) (x - 1) < spacing →
      strokeLoop wave offx offy strokew spacing fuel x (x - 1) (wave (x - 1)) distance = some l →
      List.Chain (fun a b : Point => a.x < b.x ∧
          spacing ≤ accumulated wave (a.x - offx) (b.x - offx) ∧
          accumulated wave (a.x - offx) (b.x - offx - 1) < spacing) d l := by
  intro fuel
  induction fuel with
  | zero => intro x distance d l _ _ _ h; simp [strokeLoop] at h
  | succ f ih =>
    intro x distance d l hlt hdist hprev h
    by_cases hx : x < strokew
    · by_cases hge : distance ≥ spacing
      · simp only [strokeLoop, hx, hge, if_true, Option.map_eq_some'] at h
        obtain ⟨rest, hrest, rfl⟩ := h
        have hnext := ih (x + 1) 0
          (Point.mk (offx + x) (offy + wave x) (strokePressure ((x : ℚ) / (strokew : ℚ)))) rest
          (by simp only []; omega)
          (by simp only []; rw [accumulated_self]; omega)
          (by simp only []; rw [accumulated_self]; exact hT; omega)
          (by simpa using hrest)
        refine List.Chain.cons ⟨?_, ?_, ?_⟩ hnext
        · simp only []; omega
        · have e : offx + x - offx = x := by ring
          simp only [e]
          rw [← hdist]; exact hge
        · have e : offx + x - offx = x := by ring
          simp only [e]
          exact hprev
      · simp only [strokeLoop, hx, hge, if_true, if_false] at h
        have hlt2 : distance < spacing := by omega
        refine ih (x + 1) (distance + stepLength wave x) d l (by omega) ?_ ?_
          (by simpa [stepLength] using h)
        · rw [accumulated_succ wave _ _ hlt, ← hdist]
        · simp only [add_sub_cancel_right]
          rw [← hdist]; exact hlt2
    · simp only [strokeLoop, hx, if_false, Option.some.injEq] at h
      subst h
      exact List.Chain.nil

/-- From any loop state, consecutive dabs satisfy the threshold condition. -/
theorem strokeLoop_chain (wave : Int → Int) (offx offy strokew spacing : Int)
    (hT : 0 < spacing) :
    ∀ (fuel : Nat) (x lastx lasty distance : Int) (l : List Point),
      strokeLoop wave offx offy strokew spacing fuel x lastx lasty distance = some l →
      List.Chain' (fun a b : Point => a.x < b.x ∧
          spacing ≤ accumulated wave (a.x - offx) (b.x - offx) ∧
          accumulated wave (a.x - offx) (b.x - offx - 1) < spacing) l := by
  intro fuel
  induction fuel with
  | zero => intro x lastx lasty distance l h; simp [strokeLoop] at h
  | succ f ih =>
    intro x lastx lasty distance l h
    by_cases hx : x < strokew
    · by_cases hge : distance ≥ spacing
      · simp only [strokeLoop, hx, hge, if_true, Option.map_eq_some'] at h
        obtain ⟨rest, hrest, rfl⟩ := h
        exact strokeLoop_chain_from wave offx offy strokew spacing hT f (x + 1) 0
          (Point.mk (offx + x) (offy + wave x) (strokePressure ((x : ℚ) / (strokew : ℚ)))) rest
          (by simp only []; omega)
          (by simp only []; rw [accumulated_self]; omega)
          (by simp only []; rw [accumulated_self]; exact hT; omega)
          (by simpa using hrest)
      · simp only [strokeLoop, hx, hge, if_true, if_false] at h
        exact ih _ _ _ _ _ h
    · simp only [strokeLoop, hx, if_false, Option.some.injEq] at h
      subst h
      exact List.chain'_nil

theorem qRoundHypot_neg_one (d : Int) : qRoundHypot (-1) d = max 1 |d| := by
  unfold qRoundHypot
  have h1 : (-1 : Int).natAbs = 1 := rfl
  rw [h1]
  rcases Nat.eq_zero_or_pos d.natAbs with h0 | hpos
  · have hd : d = 0 := Int.natAbs_eq_zero.mp h0
    subst hd
    have : Nat.sqrt 4 = 2 := by norm_num
    simp [this]
  · have hs : Nat.sqrt (4 * (1 ^ 2 + d.natAbs ^ 2)) = 2 * d.natAbs := by
      symm
      rw [Nat.eq_sqrt]
      constructor <;> nlinarith
    rw [hs]
    have e : (2 * d.natAbs + 1) / 2 = d.natAbs := by omega
    rw [e, Int.natCast_natAbs, max_eq_right]
    have : (1 : Int) ≤ (d.natAbs : Int) := by exact_mod_cast hpos
    rwa [Int.natCast_natAbs] at this

theorem stepLength_eq (wave : Int → Int) (k : Int) :
    stepLength wave k = max 1 |wave (k - 1) - wave k| := by
  unfold stepLength
  have : k - 1 - k = -1 := by ring
  rw [this, qRoundHypot_neg_one]

theorem stepLength_le_sqrt (wave : Int → Int) (k : Int) :
    ((stepLength wave k : Int) : ℝ) ≤
      Real.sqrt (1 + (((wave k - wave (k - 1) : Int) : ℝ)) ^ 2) := by
  rw [stepLength_eq]
  apply Real.le_sqrt_of_sq_le
  push_cast
  rcases le_total (1 : ℝ) |((wave (k - 1) : ℝ) - (wave k : ℝ))| with h | h
  · rw [max_eq_right h, sq_abs]
    nlinarith
  · rw [max_eq_left h]
    nlinarith [sq_nonneg ((wave k : ℝ) - (wave (k - 1) : ℝ))]

/-- The integer `qRoundHypot dx dy` is the real number `hypot dx dy` rounded
to the nearest integer. -/
theorem qRoundHypot_eq_round (dx dy : Int) :
    qRoundHypot dx dy = round (Real.sqrt ((dx : ℝ) ^ 2 + (dy : ℝ) ^ 2)) := by
  unfold qRoundHypot
  obtain ⟨n, hn⟩ : ∃ n : Nat, n = dx.natAbs ^ 2 + dy.natAbs ^ 2 := ⟨_, rfl⟩
  have hreal : (dx : ℝ) ^ 2 + (dy : ℝ) ^ 2 = (n : ℝ) := by
    have h1 : ((dx.natAbs : Nat) : ℝ) = |(dx : ℝ)| := by
      rw [Nat.cast_natAbs, Int.cast_abs]
    have h2 : ((dy.natAbs : Nat) : ℝ) = |(dy : ℝ)| := by
      rw [Nat.cast_natAbs, Int.cast_abs]
    rw [hn]; push_cast
    rw [h1, h2, sq_abs, sq_abs]
  rw [hreal, ← hn]
  obtain ⟨r, hr⟩ : ∃ r : Nat, r = Nat.sqrt (4 * n) := ⟨_, rfl⟩
  have hle : r * r ≤ 4 * n := by rw [hr]; exact Nat.sqrt_le _
  have hlt : 4 * n < (r + 1) * (r + 1) := by rw [hr]; exact Nat.lt_succ_sqrt _
  rw [← hr]
  obtain ⟨q, hq⟩ : ∃ q : Nat, q = (r + 1) / 2 := ⟨_, rfl⟩
  rw [← hq]
  obtain ⟨t, ht⟩ : ∃ t : ℝ, t = Real.sqrt (n : ℝ) := ⟨_, rfl⟩
  rw [← ht]
  have ht0 : 0 ≤ t := by rw [ht]; exact Real.sqrt_nonneg _
  have ht2 : t * t = (n : ℝ) := by rw [ht]; exact Real.mul_self_sqrt (Nat.cast_nonneg _)
  have hleR : (r : ℝ) * r ≤ 4 * (t * t) := by rw [ht2]; exact_mod_cast hle
  have hltR : 4 * (t * t) < ((r : ℝ) + 1) * (r + 1) := by rw [ht2]; exact_mod_cast hlt
  have hr0 : (0 : ℝ) ≤ r := Nat.cast_nonneg _
  have b1 : (r : ℝ) ≤ 2 * t := by
    by_contra hcon
    push_neg at hcon
    nlinarith
  have b2 : 2 * t < (r : ℝ) + 1 := by
    by_contra hcon
    push_neg at hcon
    nlinarith
  have q1 : 2 * q ≤ r + 1 := by omega
  have q2 : r ≤ 2 * q := by omega
  have q1R : 2 * (q : ℝ) ≤ (r : ℝ) + 1 := by exact_mod_cast q1
  have q2R : (r : ℝ) ≤ 2 * (q : ℝ) := by exact_mod_cast q2
  symm
  rw [round_eq, Int.floor_eq_iff]
  push_cast
  constructor <;> linarith

theorem sin_pi_div_twelve_bounds :
    (0.258 : ℝ) < Real.sin (Real.pi / 12) ∧ Real.sin (Real.pi / 12) < (0.259 : ℝ) ∧
    (0.965 : ℝ) < Real.sin (5 * Real.pi / 12) ∧ Real.sin (5 * Real.pi / 12) < (0.967 : ℝ) := by
  have s2lo : (1.414 : ℝ) < Real.sqrt 2 := by
    rw [Real.lt_sqrt (by norm_num)]; norm_num
  have s2hi : Real.sqrt 2 < (1.4143 : ℝ) := by
    rw [Real.sqrt_lt' (by norm_num)]; norm_num
  have s3lo : (1.732 : ℝ) < Real.sqrt 3 := by
    rw [Real.lt_sqrt (by norm_num)]; norm_num
  have s3hi : Real.sqrt 3 < (1.7321 : ℝ) := by
    rw [Real.sqrt_lt' (by norm_num)]; norm_num
  have e1 : Real.sin (Real.pi / 12) = Real.sqrt 2 * (Real.sqrt 3 - 1) / 4 := by
    rw [show Real.pi / 12 = Real.pi / 3 - Real.pi / 4 by ring, Real.sin_sub,
      Real.sin_pi_div_three, Real.cos_pi_div_four, Real.cos_pi_div_three, Real.sin_pi_div_four]
    ring
  have e5 : Real.sin (5 * Real.pi / 12) = Real.sqrt 2 * (Real.sqrt 3 + 1) / 4 := by
    rw [show 5 * Real.pi / 12 = Real.pi / 4 + Real.pi / 6 by ring, Real.sin_add,
      Real.sin_pi_div_six, Real.cos_pi_div_four, Real.cos_pi_div_six, Real.sin_pi_div_four]
    ring
  rw [e1, e5]
  refine ⟨?_, ?_, ?_, ?_⟩ <;> nlinarith

/-- The table `wave24` is the sine of a 24-step stroke of height 64, rounded:
`wave24 k = round (64 * sin (k * 2π / 24))`. -/
theorem wave24_eq_round_sin (k : Nat) (hk : k < 24) :
    wave24 (k : Int) = round (Real.sin ((k : ℝ) * (2 * Real.pi / 24)) * 64) := by
  obtain ⟨b1, b2, b3, b4⟩ := sin_pi_div_twelve_bounds
  have s2lo : (1.414 : ℝ) < Real.sqrt 2 := by
    rw [Real.lt_sqrt (by norm_num)]; norm_num
  have s2hi : Real.sqrt 2 < (1.4143 : ℝ) := by
    rw [Real.sqrt_lt' (by norm_num)]; norm_num
  have s3lo : (1.732 : ℝ) < Real.sqrt 3 := by
    rw [Real.lt_sqrt (by norm_num)]; norm_num
  have s3hi : Real.sqrt 3 < (1.7321 : ℝ) := by
    rw [Real.sqrt_lt' (by norm_num)]; norm_num
  have a2 : Real.sin (Real.pi / 6) = 1 / 2 := Real.sin_pi_div_six
  have a3 : Real.sin (Real.pi / 4) = Real.sqrt 2 / 2 := Real.sin_pi_div_four
  have a4 : Real.sin (Real.pi / 3) = Real.sqrt 3 / 2 := Real.sin_pi_div_three
  have a6 : Real.sin (Real.pi / 2) = 1 := Real.sin_pi_div_two
  have r0 : round ((0 : ℝ) * 64) = (0 : Int) := by
    rw [round_eq, Int.floor_eq_iff]; norm_num
  have r1 : round (Real.sin (Real.pi / 12) * 64) = (17 : Int) := by
    rw [round_eq, Int.floor_eq_iff]; push_cast; constructor <;> linarith
  have m1 : round (-Real.sin (Real.pi / 12) * 64) = (-17 : Int) := by
    rw [round_eq, Int.floor_eq_iff]; push_cast; constructor <;> linarith
  have r2 : round ((1 / 2 : ℝ) * 64) = (32 : Int) := by
    rw [round_eq, Int.floor_eq_iff]; norm_num
  have m2 : round (-(1 / 2 : ℝ) * 64) = (-32 : Int) := by
    rw [round_eq, Int.floor_eq_iff]; norm_num
  have r3 : round (Real.sqrt 2 / 2 * 64) = (45 : Int) := by
    rw [round_eq, Int.floor_eq_iff]; push_cast; constructor <;> linarith
  have m3 : round (-(Real.sqrt 2 / 2) * 64) = (-45 : Int) := by
    rw [round_eq, Int.floor_eq_iff]; push_cast; constructor <;> linarith
  have r4 : round (Real.sqrt 3 / 2 * 64) = (55 : Int) := by
    rw [round_eq, Int.floor_eq_iff]; push_cast; constructor <;> linarith
  have m4 : round (-(Real.sqrt 3 / 2) * 64) = (-55 : Int) := by
    rw [round_eq, Int.floor_eq_iff]; push_cast; constructor <;> linarith
  have r5 : round (Real.sin (5 * Real.pi / 12) * 64) = (62 : Int) := by
    rw [round_eq, Int.floor_eq_iff]; push_cast; constructor <;> linarith
  have m5 : round (-Real.sin (5 * Real.pi / 12) * 64) = (-62 : Int) := by
    rw [round_eq, Int.floor_eq_iff]; push_cast; constructor <;> linarith
  have r6 : round ((1 : ℝ) * 64) = (64 : Int) := by
    rw [round_eq, Int.floor_eq_iff]; norm_num
  have m6 : round (-(1 : ℝ) * 64) = (-64 : Int) := by
    rw [round_eq, Int.floor_eq_iff]; norm_num
  interval_cases k
  · simp [wave24]
  · rw [show ((1 : Nat) : ℝ) * (2 * Real.pi / 24) = Real.pi / 12 by push_cast; ring, r1]; rfl
  · rw [show ((2 : Nat) : ℝ) * (2 * Real.pi / 24) = Real.pi / 6 by push_cast; ring, a2, r2]; rfl
  · rw [show ((3 : Nat) : ℝ) * (2 * Real.pi / 24) = Real.pi / 4 by push_cast; ring, a3, r3]; rfl
  · rw [show ((4 : Nat) : ℝ) * (2 * Real.pi / 24) = Real.pi / 3 by push_cast; ring, a4, r4]; rfl
  · rw [show ((5 : Nat) : ℝ) * (2 * Real.pi / 24) = 5 * Real.pi / 12 by push_cast; ring, r5]; rfl
  · rw [show ((6 : Nat) : ℝ) * (2 * Real.pi / 24) = Real.pi / 2 by push_cast; ring, a6, r6]; rfl
  · rw [show ((7 : Nat) : ℝ) * (2 * Real.pi / 24) = Real.pi - 5 * Real.pi / 12 by push_cast; ring,
      Real.sin_pi_sub, r5]; rfl
  · rw [show ((8 : Nat) : ℝ) * (2 * Real.pi / 24) = Real.pi - Real.pi / 3 by push_cast; ring,
      Real.sin_pi_sub, a4, r4]; rfl
  · rw [show ((9 : Nat) : ℝ) * (2 * Real.pi / 24) = Real.pi - Real.pi / 4 by push_cast; ring,
      Real.sin_pi_sub, a3, r3]; rfl
  · rw [show ((10 : Nat) : ℝ) * (2 * Real.pi / 24) = Real.pi - Real.pi / 6 by push_cast; ring,
      Real.sin_pi_sub, a2, r2]; rfl
  · rw [show ((11 : Nat) : ℝ) * (2 * Real.pi / 24) = Real.pi - Real.pi / 12 by push_cast; ring,
      Real.sin_pi_sub, r1]; rfl
  · rw [show ((12 : Nat) : ℝ) * (2 * Real.pi / 24) = Real.pi by push_cast; ring,
      Real.sin_pi, r0]; rfl
  · rw [show ((13 : Nat) : ℝ) * (2 * Real.pi / 24) = Real.pi / 12 + Real.pi by push_cast; ring,
      Real.sin_add_pi, m1]; rfl
  · rw [show ((14 : Nat) : ℝ) * (2 * Real.pi / 24) = Real.pi / 6 + Real.pi by push_cast; ring,
      Real.sin_add_pi, a2, m2]; rfl
  · rw [show ((15 : Nat) : ℝ) * (2 * Real.pi / 24) = Real.pi / 4 + Real.pi by push_cast; ring,
      Real.sin_add_pi, a3, m3]; rfl
  · rw [show ((16 : Nat) : ℝ) * (2 * Real.pi / 24) = Real.pi / 3 + Real.pi by push_cast; ring,
      Real.sin_add_pi, a4, m4]; rfl
  · rw [show ((17 : Nat) : ℝ) * (2 * Real.pi / 24) = 5 * Real.pi / 12 + Real.pi by push_cast; ring,
      Real.sin_add_pi, m5]; rfl
  · rw [show ((18 : Nat) : ℝ) * (2 * Real.pi / 24) = Real.pi / 2 + Real.pi by push_cast; ring,
      Real.sin_add_pi, a6, m6]; rfl
  · rw [show ((19 : Nat) : ℝ) * (2 * Real.pi / 24) = (Real.pi - 5 * Real.pi / 12) + Real.pi by
        push_cast; ring,
      Real.sin_add_pi, Real.sin_pi_sub, m5]; rfl
  · rw [show ((20 : Nat) : ℝ) * (2 * Real.pi / 24) = (Real.pi - Real.pi / 3) + Real.pi by
        push_cast; ring,
      Real.sin_add_pi, Real.sin_pi_sub, a4, m4]; rfl
  · rw [show ((21 : Nat) : ℝ) * (2 * Real.pi / 24) = (Real.pi - Real.pi / 4) + Real.pi by
        push_cast; ring,
      Real.sin_add_pi, Real.sin_pi_sub, a3, m3]; rfl
  · rw [show ((22 : Nat) : ℝ) * (2 * Real.pi / 24) = (Real.pi - Real.pi / 6) + Real.pi by
        push_cast; ring,
      Real.sin_add_pi, Real.sin_pi_sub, a2, m2]; rfl
  · rw [show ((23 : Nat) : ℝ) * (2 * Real.pi / 24) = (Real.pi - Real.pi / 12) + Real.pi by
        push_cast; ring,
      Real.sin_add_pi, Real.sin_pi_sub, m1]; rfl

/-! ## Distance between consecutive dabs -/

theorem wave24_values :
    wave24 0 = 0 ∧ wave24 1 = 17 ∧ wave24 2 = 32 ∧ wave24 3 = 45 ∧ wave24 4 = 55 ∧
    wave24 5 = 62 ∧ wave24 6 = 64 ∧ wave24 7 = 62 ∧ wave24 8 = 55 ∧ wave24 9 = 45 ∧
    wave24 10 = 32 ∧ wave24 11 = 17 ∧ wave24 12 = 0 ∧ wave24 13 = -17 ∧ wave24 14 = -32 ∧
    wave24 15 = -45 ∧ wave24 16 = -55 ∧ wave24 17 = -62 ∧ wave24 18 = -64 ∧ wave24 19 = -62 ∧
    wave24 20 = -55 ∧ wave24 21 = -45 ∧ wave24 22 = -32 ∧ wave24 23 = -17 := by
  decide

theorem stroke_spacing_100 (shape : PreviewShape) (w h : Int) :
    (setSpacing 100 (examplePreview shape w h)).spacing = 10 := by
  unfold BrushPreview.spacing
  rw [Brush.radius_one]
  simp only [setSpacing, Brush.setSpacing, examplePreview, exampleBrush]
  decide

/-- The dabs of the stroke on a 32 x 256 preview with spacing 100 and radius
10: at the path points 2, 4, 8, 10, 12, 14, 16, 20, 22. -/
theorem stroke_32_256_dabs :
    updatePreview 25 wave24 (setSpacing 100 (examplePreview PreviewShape.Stroke 32 256)) =
      some [Point.mk 6 160 (strokePressure ((2 : Int) / (24 : Int))),
        Point.mk 8 183 (strokePressure ((4 : Int) / (24 : Int))),
        Point.mk 12 183 (strokePressure ((8 : Int) / (24 : Int))),
        Point.mk 14 160 (strokePressure ((10 : Int) / (24 : Int))),
        Point.mk 16 128 (strokePressure ((12 : Int) / (24 : Int))),
        Point.mk 18 96 (strokePressure ((14 : Int) / (24 : Int))),
        Point.mk 20 73 (strokePressure ((16 : Int) / (24 : Int))),
        Point.mk 24 73 (strokePressure ((20 : Int) / (24 : Int))),
        Point.mk 26 96 (strokePressure ((22 : Int) / (24 : Int)))] := by
  have hw : (setSpacing 100 (examplePreview PreviewShape.Stroke 32 256)).strokew = 24 := by decide
  have hx : (setSpacing 100 (examplePreview PreviewShape.Stroke 32 256)).offx = 4 := by decide
  have hy : (setSpacing 100 (examplePreview PreviewShape.Stroke 32 256)).offy = 128 := by decide
  have hsh : (setSpacing 100 (examplePreview PreviewShape.Stroke 32 256)).shape_ =
      PreviewShape.Stroke := rfl
  obtain ⟨v0, v1, v2, v3, v4, v5, v6, v7, v8, v9, v10, v11, v12, v13, v14, v15, v16, v17, v18,
    v19, v20, v21, v22, v23⟩ := wave24_values
  have q0 : qRoundHypot 0 0 = 0 := by simp [qRoundHypot]
  simp only [updatePreview, hsh, hw, hx, hy, stroke_spacing_100]
  simp [strokeLoop, v0, v1, v2, v3, v4, v5, v6, v7, v8, v9, v10, v11, v12, v13, v14, v15, v16,
    v17, v18, v19, v20, v21, v22, v23, q0, qRoundHypot_neg_one]

/-- C2 is false as stated: on a 32 x 256 preview with spacing 100 and radius
10 (threshold 10) the second and the third dab, at (8, 183) and (12, 183) on
either side of the crest of the sine, are at distance 4 from each other, not
at distance 9 or more. -/
theorem C2_consecutive_dabs_distance_counterexample :
    ¬ (∀ dabs, updatePreview 25 wave24
          (setSpacing 100 (examplePreview PreviewShape.Stroke 32 256)) = some dabs →
        List.Chain' (fun a b : Point => (9 : Int) ^ 2 ≤ (b.x - a.x) ^ 2 + (b.y - a.y) ^ 2)
          dabs) := by
  intro h
  have hc := h _ stroke_32_256_dabs
  simp only [List.chain'_cons] at hc
  exact absurd hc.2.1 (by decide)

/-- C2, amended: for the Stroke shape with spacing 100 and radius 10
(threshold 10), for every area and every sampled sine, `updatePreview`
terminates and any two consecutive dabs, at path points `p_i` and `p_j`, are at
distance at least 10 from each other along the sampled path (the sum of the
Euclidean lengths of the steps `p_(k-1) p_k` for `k = i+1 .. j`), while their
straight-line distance is at least 2. -/
theorem C2_consecutive_dabs_path_length (wave : Int → Int) (s : BrushPreview) (fuel : Nat)
    (hshape : s.shape_ = PreviewShape.Stroke)
    (hspacing : s.brush_.spacing = 100) (hradius : s.brush_.radius 1 = 10)
    (hfuel : s.strokew.toNat < fuel) :
    ∃ dabs, updatePreview fuel wave s = some dabs ∧
      List.Chain' (fun a b : Point =>
        (10 : ℝ) ≤ ∑ k in Finset.Ico (a.x - s.offx + 1) (b.x - s.offx + 1),
            Real.sqrt (1 + (((wave k - wave (k - 1) : Int) : ℝ)) ^ 2) ∧
        (2 : Int) ^ 2 ≤ (b.x - a.x) ^ 2 + (b.y - a.y) ^ 2) dabs := by
  have hT : s.spacing = 10 := by
    unfold BrushPreview.spacing
    rw [hspacing, hradius]
    decide
  obtain ⟨l, hl, -⟩ := strokeLoop_terminates wave s.offx s.offy s.strokew s.spacing
    fuel 0 0 0 0 (by simpa using hfuel)
  have hchain := strokeLoop_chain wave s.offx s.offy s.strokew s.spacing (by omega)
    fuel 0 0 0 0 l hl
  refine ⟨l, by simp [updatePreview, hshape, hl], List.Chain'.imp ?_ hchain⟩
  intro a b ⟨h1, h2, _⟩
  constructor
  · have hcast : ((accumulated wave (a.x - s.offx) (b.x - s.offx) : Int) : ℝ) =
        ∑ k in Finset.Ico (a.x - s.offx + 1) (b.x - s.offx), ((stepLength wave k : Int) : ℝ) := by
      simp [accumulated]
    have h10 : (10 : ℝ) ≤ ((accumulated wave (a.x - s.offx) (b.x - s.offx) : Int) : ℝ) := by
      have : (10 : Int) ≤ accumulated wave (a.x - s.offx) (b.x - s.offx) := by omega
      exact_mod_cast this
    calc (10 : ℝ) ≤ ∑ k in Finset.Ico (a.x - s.offx + 1) (b.x - s.offx),
            ((stepLength wave k : Int) : ℝ) := by rw [← hcast]; exact h10
      _ ≤ ∑ k in Finset.Ico (a.x - s.offx + 1) (b.x - s.offx),
            Real.sqrt (1 + (((wave k - wave (k - 1) : Int) : ℝ)) ^ 2) :=
          Finset.sum_le_sum (fun k _ => stepLength_le_sqrt wave k)
      _ ≤ ∑ k in Finset.Ico (a.x - s.offx + 1) (b.x - s.offx + 1),
            Real.sqrt (1 + (((wave k - wave (k - 1) : Int) : ℝ)) ^ 2) := by
          apply Finset.sum_le_sum_of_subset_of_nonneg
          · intro k hk
            simp only [Finset.mem_Ico] at hk ⊢
            omega
          · intro k _ _
            exact Real.sqrt_nonneg _
  · have hgap : a.x + 2 ≤ b.x := by
      by_contra hcon
      have h0 := accumulated_self wave (a.x - s.offx) (b.x - s.offx) (by omega)
      omega
    nlinarith [sq_nonneg (b.y - a.y)]

/-- C2 as amended, on the 32 x 256 preview with spacing 100 and radius 10. -/
theorem C2_consecutive_dabs_path_length_witness :
    ∃ dabs, updatePreview 25 wave24
        (setSpacing 100 (examplePreview PreviewShape.Stroke 32 256)) = some dabs ∧
      List.Chain' (fun a b : Point =>
        (10 : ℝ) ≤ ∑ k in Finset.Ico (a.x - 4 + 1) (b.x - 4 + 1),
            Real.sqrt (1 + (((wave24 k - wave24 (k - 1) : Int) : ℝ)) ^ 2) ∧
        (2 : Int) ^ 2 ≤ (b.x - a.x) ^ 2 + (b.y - a.y) ^ 2) dabs :=
  C2_consecutive_dabs_path_length wave24
    (setSpacing 100 (examplePreview PreviewShape.Stroke 32 256)) 25 rfl
    (by decide)
    (by rw [Brush.radius_one]; decide)
    (by decide)

end Drawpile
